import Mathlib

/-!
Verification of the dnbd3 proxy-server core (cache map, uplink queue,
alt-server selection, integrity checker) against its C sources.

The C sources are shallowly embedded: machine integers become `Nat`
(the dnbd3 invariants keep every quantity far below 2^64, and each
claim's hypotheses keep offsets below the image size, so no wrap-around
can occur in the modelled ranges), byte arrays become total functions
`Nat → Nat` (byte index to byte value), fixed-capacity arrays with a
fill counter become `List` plus a length, and `while` loops become
structural recursion on the (explicit) iteration count.
-/

set_option maxHeartbeats 1000000
set_option maxRecDepth 8000

namespace Dnbd3

/-- 4 KiB, the unit of cache-map tracking (`DNBD3_BLOCK_SIZE`; the macro lives
in a header that is not part of the sources, value per spec: "Block size is
4 KiB"). -/
def DNBD3_BLOCK_SIZE : Nat := 4096

/-- 16 MiB, the unit of CRC-32 coverage (`HASH_BLOCK_SIZE`; value per spec:
"A hash-block is 16 MiB (4096 × 4 KiB)"). -/
def HASH_BLOCK_SIZE : Nat := 2 ^ 24

/-- Number of cache-map bytes for a given image size: one bit per 4 KiB
block, i.e. `ceil(size / 32768)` (`IMGSIZE_TO_MAPBYTES`; macro not in the
sources, formula per spec: "A byte array of ceil(virtualSize / (8 × 4 KiB))
bytes"). -/
def IMGSIZE_TO_MAPBYTES (size : Nat) : Nat := (size + 32767) >>> 15

/-- The state of one image that the modelled operations touch: its virtual
file size, its optional cache map (`NULL` pointer = `none` = image complete)
and the backing cache file's bytes (`dnbd3_image_t` in image.h; fields not
read by any modelled operation are omitted). -/
structure Image where
  virtualFilesize : Nat
  cacheMap : Option (Nat → Nat)
  file : Nat → Nat

instance : Inhabited Image := ⟨⟨0, none, fun _ => 0⟩⟩

/-- Bit `(y, x)` of a cache-map byte array, indexed by 4 KiB-block number
`k`: byte `y = k / 8`, bit `x = k % 8` (spec §3: byte index `offset >> 15`,
bit index `(offset >> 12) & 7`). -/
def mapBit (m : Nat → Nat) (k : Nat) : Bool := Nat.testBit (m (k / 8)) (k % 8)

/-- Presence bit of block `k` of an image; a complete image (no cache map)
has every block present. -/
def cmBit (img : Image) (k : Nat) : Bool :=
  match img.cacheMap with
  | none => true
  | some m => mapBit m k

/-- One iteration of the loop body of `image_updateCachemap` (part_001,
lines 107-116): byte `pos >> 15` gets bit `(pos >> 12) & 7` set (`|=`) or
cleared (`&= ~`), all other bytes are untouched. -/
def setCacheBit (set : Bool) (m : Nat → Nat) (pos : Nat) : Nat → Nat :=
  fun y =>
    if y = pos >>> 15 then
      if set then m y ||| (1 <<< ((pos >>> 12) &&& 7))
      else m y &&& (255 ^^^ (1 <<< ((pos >>> 12) &&& 7)))
    else m y

/-- The `while ( pos < end )` loop of `image_updateCachemap`, which steps
`pos` by `DNBD3_BLOCK_SIZE` each iteration; the iteration count
`⌈(end - pos) / 4096⌉` is made explicit to obtain structural recursion. -/
def cachemapLoop (set : Bool) : Nat → (Nat → Nat) → Nat → (Nat → Nat)
  | 0, m, _ => m
  | n + 1, m, pos => cachemapLoop set n (setCacheBit set m pos) (pos + DNBD3_BLOCK_SIZE)

/-- `x & ~(uint64_t)(DNBD3_BLOCK_SIZE - 1)`: clear the low 12 bits. -/
def blockAlignDown (x : Nat) : Nat := (x >>> 12) <<< 12

/-- `(x + DNBD3_BLOCK_SIZE - 1) & ~(uint64_t)(DNBD3_BLOCK_SIZE - 1)`. -/
def blockAlignUp (x : Nat) : Nat := ((x + (DNBD3_BLOCK_SIZE - 1)) >>> 12) <<< 12

/-- `image_updateCachemap` (part_001 lines 72-138): update the cache map for
byte range `[start, end_)`.  Setting contracts the range inward to 4 KiB
borders, clearing expands it outward; on a `NULL` map, setting is a no-op
and clearing first recreates an all-ones map.  The trailing hash-block
re-check that the C function performs afterwards only enqueues integrity
checks (modelled separately as `integrity_check`) and never modifies the
map or the image, so it does not appear here. -/
def image_updateCachemap (img : Image) (start end_ : Nat) (set : Bool) : Image :=
  match set with
  | true =>
    -- "If we set as cached, move inwards in case we're not at 4k border"
    let s := blockAlignUp start
    let e := blockAlignDown end_
    if s ≥ e then img
    else
      match img.cacheMap with
      | none => img  -- "image_updateCachemap(true) with no cache_map", debug log only
      | some m =>
          { img with cacheMap := some (cachemapLoop true ((e - s) / DNBD3_BLOCK_SIZE) m s) }
  | false =>
    -- "If marking as NOT cached, move outwards in case we're not at 4k border"
    let s := blockAlignDown start
    let e := blockAlignUp end_
    if s ≥ e then img
    else
      match img.cacheMap with
      | none =>
          -- "Recreate a cache map, set it to all 1 initially"
          { img with cacheMap := some (cachemapLoop false ((e - s) / DNBD3_BLOCK_SIZE) (fun _ => 0xFF) s) }
      | some m =>
          { img with cacheMap := some (cachemapLoop false ((e - s) / DNBD3_BLOCK_SIZE) m s) }

/-- The completeness scan of `image_isComplete` (part_001 lines 157-177):
every byte but the last must be `0xFF`, and the last byte is compared under
the mask `last_byte` built from `blocks_in_last_byte = (virtualFilesize >>
12) & 7` (`0xFF` when that is zero).  The C loop that breaks on the first
non-`0xFF` byte is expressed with `List.all`, the mask-building loop
`for j < blocks_in_last_byte: last_byte |= 1 << j` with `List.foldl`. -/
def cacheMapComplete (vsize : Nat) (m : Nat → Nat) : Bool :=
  let len := IMGSIZE_TO_MAPBYTES vsize
  let body := (List.range (len - 1)).all (fun j => m j == 0xFF)
  let blocksInLastByte := (vsize >>> 12) &&& 7
  let lastByte :=
    if blocksInLastByte = 0 then 0xFF
    else (List.range blocksInLastByte).foldl (fun a j => a ||| (1 <<< j)) 0
  body && (m (len - 1) &&& lastByte == lastByte)

/-- `image_isComplete` (part_001 lines 146-190).  Returns the boolean
result, the image afterwards (cache map freed on first-time completeness)
and whether the `.map` sidecar file was unlinked. -/
def image_isComplete (img : Image) : Bool × Image × Bool :=
  if img.virtualFilesize = 0 then (false, img, false)
  else
    match img.cacheMap with
    | none => (true, img, false)
    | some m =>
        if cacheMapComplete img.virtualFilesize m then
          (true, { img with cacheMap := none }, true)
        else (false, img, false)

/-! ### Uplink request queue (altservers.h, uplink section) -/

/-- Request states `ULR_FREE`, `ULR_NEW`, `ULR_PENDING`, `ULR_PROCESSING`
(uplink.h). -/
inductive ULR where
  | free
  | new
  | pending
  | processing
deriving DecidableEq

/-- One slot of `dnbd3_connection_t.queue` (`dnbd3_queued_request_t`): a
byte range (the C fields `from`/`to`, renamed since `from` is reserved in
Lean), the client's handle, and an opaque client identifier standing for
the `dnbd3_client_t *` pointer. -/
structure QueuedRequest where
  status : ULR
  reqFrom : Nat
  reqTo : Nat
  handle : Nat
  client : Nat
deriving DecidableEq

instance : Inhabited QueuedRequest := ⟨⟨ULR.free, 0, 0, 0, 0⟩⟩

/-- Queue capacity `SERVER_MAX_UPLINK_QUEUE` (config header not among the
sources; spec §3: bounded queue per uplink, capacity e.g. 64). -/
def SERVER_MAX_UPLINK_QUEUE : Nat := 64

/-- The covering test of `uplink_request` (altservers.h line 665):
`status ∈ {PENDING, NEW}` and `from <= start && to >= end`. -/
def covers (start end_ : Nat) (e : QueuedRequest) : Prop :=
  (e.status = ULR.pending ∨ e.status = ULR.new) ∧ e.reqFrom ≤ start ∧ end_ ≤ e.reqTo

instance (start end_ : Nat) (e : QueuedRequest) : Decidable (covers start end_ e) :=
  inferInstanceAs (Decidable (_ ∧ _ ∧ _))

/-- The scan loop of `uplink_request` (altservers.h lines 662-669): walk
the first `queueLen` entries, remember the first `ULR_FREE` slot, `break`
at the first covering Pending/New entry.  Returns
`(freeSlot, foundExisting)` with `-1` rendered as `none`. -/
def uplinkScan (start end_ : Nat) : List QueuedRequest → Nat → Option Nat → Option Nat × Option Nat
  | [], _, free => (free, none)
  | e :: rest, i, free =>
    let free' := if free = none ∧ e.status = ULR.free then some i else free
    if covers start end_ e then (free', some i)
    else uplinkScan start end_ rest (i + 1) free'

/-- Result of `uplink_request`: the returned boolean, the queue array and
fill length afterwards, the slot written, and whether the uplink thread
was signalled (the eventfd write that triggers an upstream
`CMD_GET_BLOCK` for NEW entries). -/
structure UplinkRequestResult where
  success : Bool
  queue : List QueuedRequest
  queueLen : Nat
  slot : Option Nat
  signaled : Bool
deriving DecidableEq

/-- `uplink_request` (altservers.h lines 646-693), given the queue state
of the image's uplink (the early `NULL` checks on client/image/uplink are
outside this queue model).  After the scan: if no free slot was seen or it
lies before the covering entry (`freeSlot == -1 || freeSlot <
foundExisting`), the request must be appended, failing when the queue
already holds `SERVER_MAX_UPLINK_QUEUE` entries; the entry is written with
status NEW (no covering entry; the uplink is signalled) or PENDING
(attached to the covering entry; no signal).
First, `freeSlot == -1 || freeSlot < foundExisting` (line 670), with `-1`
rendered as `none` (note `-1 < -1` and `f < -1` are false in C): -/
def needAppendFn : Option Nat → Option Nat → Bool
  | none, _ => true
  | some f, some fd => decide (f < fd)
  | some _, none => false

def uplink_request (q : List QueuedRequest) (qLen client handle start length : Nat) :
    UplinkRequestResult :=
  let end_ := start + length
  let scanRes := uplinkScan start end_ (q.take qLen) 0 none
  let entry : QueuedRequest :=
    { status := if scanRes.2 = none then ULR.new else ULR.pending,
      reqFrom := start, reqTo := end_, handle := handle, client := client }
  if needAppendFn scanRes.1 scanRes.2 then
    if SERVER_MAX_UPLINK_QUEUE ≤ qLen then
      ⟨false, q, qLen, none, false⟩
    else
      ⟨true, q.set qLen entry, qLen + 1, some qLen, decide (scanRes.2 = none)⟩
  else
    match scanRes.1 with
    | some f => ⟨true, q.set f entry, qLen, some f, decide (scanRes.2 = none)⟩
    | none => ⟨false, q, qLen, none, false⟩

/-- Folding a sequence of client requests `(client, handle, start,
length)` through `uplink_request`, tracking queue array and length. -/
def uplinkRequestFold (st : List QueuedRequest × Nat) (r : Nat × Nat × Nat × Nat) :
    List QueuedRequest × Nat :=
  ((uplink_request st.1 st.2 r.1 r.2.1 r.2.2.1 r.2.2.2).queue,
   (uplink_request st.1 st.2 r.1 r.2.1 r.2.2.1 r.2.2.2).queueLen)

/-- A full queue (64 entries): slot 0 holds a Pending request covering
`[0, 65536)`, slot 5 is Free, every other slot holds a Pending request
for `[8192, 12288)`. -/
def c5queue : List QueuedRequest :=
  ((List.replicate 64 ⟨ULR.pending, 8192, 12288, 1, 1⟩).set 0
      ⟨ULR.pending, 0, 65536, 2, 2⟩).set 5 ⟨ULR.free, 0, 0, 0, 0⟩

/-! ### Uplink reply dispatch (`uplink_handle_receive`) -/

/-- The `write()` of a reply payload into the backing file at offset
`off` (after `lseek`), byte by byte. -/
def writeBytes (f : Nat → Nat) (off : Nat) : List Nat → (Nat → Nat)
  | [] => f
  | b :: rest => writeBytes (fun j => if j = off then b else f j) (off + 1) rest

/-- A reply forwarded to one client (`outReply` plus the `iov[1]` slice):
the entry's original handle, the size `to - from`, and the entry's own
sub-slice of the receive buffer (`recvBuffer + (from - start)`,
length `to - from`). -/
structure Send where
  handle : Nat
  size : Nat
  data : List Nat
deriving DecidableEq

def mkSend (buf : List Nat) (start : Nat) (e : QueuedRequest) : Send :=
  ⟨e.handle, e.reqTo - e.reqFrom, (buf.drop (e.reqFrom - start)).take (e.reqTo - e.reqFrom)⟩

/-- The match test of the reply handler (altservers.h line 991):
`status == ULR_PENDING && from >= start && to <= end`. -/
def replyMatches (start end_ : Nat) (e : QueuedRequest) : Prop :=
  e.status = ULR.pending ∧ start ≤ e.reqFrom ∧ e.reqTo ≤ end_

instance (start end_ : Nat) (e : QueuedRequest) : Decidable (replyMatches start end_ e) :=
  inferInstanceAs (Decidable (_ ∧ _ ∧ _))

/-- Phase 2 of the reply handler (altservers.h lines 986-994): each of the
first `queueLen` entries that is Pending and covered by the reply moves to
Processing (`i` is the queue index of the list head). -/
def markMatching (start end_ qLen : Nat) : Nat → List QueuedRequest → List QueuedRequest
  | _, [] => []
  | i, e :: rest =>
    (if i < qLen ∧ replyMatches start end_ e then { e with status := ULR.processing } else e)
      :: markMatching start end_ qLen (i + 1) rest

/-- Result of the dispatch loop: queue array, queue length, sends emitted. -/
structure DispatchResult where
  queue : List QueuedRequest
  queueLen : Nat
  sends : List Send
deriving DecidableEq

/-- Phase 3 of the reply handler (altservers.h lines 996-1018): iterate
`i = queueLen-1 … 0`; every Processing entry is answered (its send is
emitted), set to Free, and the queue tail may shrink
(`if i > 20 && i == queueLen-1: queueLen--`).  The countdown index is the
recursion argument; iteration at index `i` happens before all lower
indices, so the send list is in decreasing slot order. -/
def dispatchLoop (buf : List Nat) (start : Nat) :
    Nat → List QueuedRequest → Nat → DispatchResult
  | 0, arr, qLen => ⟨arr, qLen, []⟩
  | i + 1, arr, qLen =>
    if (arr.getD i default).status = ULR.processing then
      let r := dispatchLoop buf start i
        (arr.set i { arr.getD i default with status := ULR.free })
        (if 20 < i ∧ i = qLen - 1 then qLen - 1 else qLen)
      ⟨r.queue, r.queueLen, mkSend buf start (arr.getD i default) :: r.sends⟩
    else dispatchLoop buf start i arr qLen

/-- Processing of one complete `CMD_GET_BLOCK` reply by
`uplink_handle_receive` (altservers.h lines 970-1018), for the success
path of the file write: write the payload at offset `start` (the reply's
handle) into the backing file, mark the cache map present for the bytes
written, move covered Pending entries to Processing, then answer them in
decreasing slot order. -/
def uplink_handle_receive_reply (img : Image) (arr : List QueuedRequest) (qLen start : Nat)
    (payload : List Nat) : Image × DispatchResult :=
  let img1 := { img with file := writeBytes img.file start payload }
  let img2 := image_updateCachemap img1 start (start + payload.length) true
  let arr2 := markMatching start (start + payload.length) qLen 0 arr
  (img2, dispatchLoop payload start qLen arr2 qLen)

/-! ### Integrity checker (part_003) -/

/-- `CHECK_QUEUE_SIZE` (part_003 line 17). -/
def CHECK_QUEUE_SIZE : Nat := 100

/-- One slot of `checkQueue` (part_003 `queue_entry`): the image pointer
(`NULL` = `none`, rendered as an opaque image identifier) and the hash
block number. -/
structure CheckQueueEntry where
  image : Option Nat
  block : Nat
deriving DecidableEq

instance : Inhabited CheckQueueEntry := ⟨⟨none, 0⟩⟩

/-- The scan loop of `integrity_check` (part_003 lines 76-83): remember
the first free (`image == NULL`) slot — `else if` skips the duplicate test
on that entry — and return early when the same (image, block) pair is
already queued.  Returns (duplicate found, free slot). -/
def integrityScan (img blk : Nat) : List CheckQueueEntry → Nat → Option Nat → Bool × Option Nat
  | [], _, free => (false, free)
  | e :: rest, i, free =>
    if free = none ∧ e.image = none then integrityScan img blk rest (i + 1) (some i)
    else if e.image = some img ∧ e.block = blk then (true, free)
    else integrityScan img blk rest (i + 1) free

/-- `integrity_check` (part_003 lines 72-96): enqueue a hash-block check,
deduplicating, discarding silently when the queue is full.  Returns the
queue array, the queue length, and whether an entry was enqueued (i.e.
whether `pthread_cond_signal` was called). -/
def integrity_check (arr : List CheckQueueEntry) (len imgId blk : Nat) :
    List CheckQueueEntry × Nat × Bool :=
  let scanRes := integrityScan imgId blk (arr.take len) 0 none
  if scanRes.1 then (arr, len, false)
  else
    match scanRes.2 with
    | some f => (arr.set f ⟨some imgId, blk⟩, len, true)
    | none =>
        if CHECK_QUEUE_SIZE ≤ len then (arr, len, false)
        else (arr.set len ⟨some imgId, blk⟩, len + 1, true)

/-- The body of `integrity_main` for one dequeued (image, hash block) pair
(part_003 lines 127-133), with the CRC comparison
(`image_checkBlocksCrc32` over the backing file) abstracted as its boolean
outcome `crcOk`: a mismatch clears the cache-map bits of the whole hash
block via `image_updateCachemap(image, block * HASH_BLOCK_SIZE, (block +
1) * HASH_BLOCK_SIZE, FALSE)` (and logs a warning); a match leaves the
image untouched. -/
def integrity_checkStep (img : Image) (block : Nat) (crcOk : Bool) : Image :=
  if crcOk then img
  else image_updateCachemap img (block * HASH_BLOCK_SIZE) ((block + 1) * HASH_BLOCK_SIZE) false

/-- A full integrity queue: 100 occupied slots (image 9, block 9). -/
def c10queue : List CheckQueueEntry := List.replicate 100 ⟨some 9, 9⟩

/-! ### Alt-server failure accounting (altservers.c) -/

/-- One slot of the alt-server table, restricted to the fields
`altservers_serverFailed` reads: the host (`host.type == 0`, an empty
slot, is `none`; address+port equality is abstracted into equality of an
opaque identifier), the failure counter and the last-failure tick. -/
structure AltServer where
  host : Option Nat
  numFails : Nat
  lastFail : Nat
deriving DecidableEq

instance : Inhabited AltServer := ⟨⟨none, 0, 0⟩⟩

/-- `SERVER_RTT_INTERVAL_INIT`, the RTT-init window in seconds (config
header not among the sources; the claims are independent of the value). -/
def SERVER_RTT_INTERVAL_INIT : Nat := 5

/-- `SERVER_UPLINK_FAIL_INCREASE`, the fixed fail-count step (config
header not among the sources; the claims are independent of the value). -/
def SERVER_UPLINK_FAIL_INCREASE : Nat := 5

/-- The scan loop of `altservers_serverFailed` (altservers.c lines
374-382): before the failed server is found, look for it; afterwards keep
updating `lastOk` to the last non-empty server with zero failures.
Returns `(foundIndex, lastOk)`. -/
def serverFailedScan (h : Nat) :
    List AltServer → Nat → Option Nat → Option Nat → Option Nat × Option Nat
  | [], _, found, lastOk => (found, lastOk)
  | e :: rest, i, found, lastOk =>
    match found with
    | none =>
        serverFailedScan h rest (i + 1) (if e.host = some h then some i else none) lastOk
    | some f =>
        serverFailedScan h rest (i + 1) (some f)
          (if e.host ≠ none ∧ e.numFails = 0 then some i else lastOk)

/-- `altservers_serverFailed` (altservers.c lines 367-400): if the failed
server is found and its last failure is older than the RTT-init window,
increase its fail counter by the fixed step, stamp the failure time, and
swap it with the last known-good server so failing servers move towards
the end of the table; otherwise leave the table untouched. -/
def altservers_serverFailed (servers : List AltServer) (h now : Nat) : List AltServer :=
  let scanRes := serverFailedScan h servers 0 none none
  match scanRes.1 with
  | none => servers
  | some f =>
      let e := servers.getD f default
      if SERVER_RTT_INTERVAL_INIT < now - e.lastFail then
        let s1 := servers.set f
          { e with numFails := e.numFails + SERVER_UPLINK_FAIL_INCREASE, lastFail := now }
        match scanRes.2 with
        | none => s1
        | some j => (s1.set f (s1.getD j default)).set j (s1.getD f default)
      else servers

/-! ### Fuse-client probe switch decision (part_000, `probeAltServers`) -/

/-- One `alt_server_t` of the fuse client, restricted to the fields the
switch decision reads: the averaged RTT, the best-count score and the live
RTT. -/
structure ProbeSrv where
  rtt : Nat
  bestCount : Nat
  liveRtt : Nat
deriving DecidableEq

instance : Inhabited ProbeSrv := ⟨⟨0, 0, 0⟩⟩

/-- The liveRtt decay of the update loop (part_000 lines 812-814):
`if (srv->liveRtt > current->liveRtt && srv->liveRtt > srv->rtt)
srv->liveRtt -= (srv->liveRtt / 100) + 1`. -/
def lrDecay (cur s : ProbeSrv) : ProbeSrv :=
  if s.liveRtt > cur.liveRtt ∧ s.liveRtt > s.rtt
  then { s with liveRtt := s.liveRtt - (s.liveRtt / 100 + 1) } else s

/-- `if (srv->bestCount < 50) srv->bestCount += 2` (part_000 lines
816-818), applied to the best server. -/
def bcInc (s : ProbeSrv) : ProbeSrv :=
  if s.bestCount < 50 then { s with bestCount := s.bestCount + 2 } else s

/-- `else if (srv->bestCount > 0) srv->bestCount--` (part_000 lines
823-825), applied to every other server. -/
def bcDec (s : ProbeSrv) : ProbeSrv :=
  if 0 < s.bestCount then { s with bestCount := s.bestCount - 1 } else s

/-- The per-round update loop over the active servers (part_000 lines
808-826), with `srv == best` rendered as index equality. -/
def probeUpd (cur : ProbeSrv) (bestIdx : Nat) : Nat → List ProbeSrv → List ProbeSrv
  | _, [] => []
  | i, s :: rest =>
    (if i = bestIdx then bcInc (lrDecay cur s) else bcDec (lrDecay cur s))
      :: probeUpd cur bestIdx (i + 1) rest

/-- `altservers[i].bestCount = 0` for every server other than the best
(part_000 lines 845-849), executed when a switch is taken. -/
def resetOthers (bestIdx : Nat) : Nat → List ProbeSrv → List ProbeSrv
  | _, [] => []
  | i, s :: rest =>
    (if i = bestIdx then s else { s with bestCount := 0 }) :: resetOthers bestIdx (i + 1) rest

/-- The switch decision of `probeAltServers` (part_000 lines 805-853) for
a round with a best candidate and a currently connected server
(`current != NULL`), parameterised by the probe outcome (`bestIdx`,
`currentIdx`), by `rand() % 50`'s seed `randVal`, and by the two threshold
constants `RTT_ABSOLUTE_THRESHOLD` and `RTT_THRESHOLD_FACTOR` (their
values live in a config header that is not among the sources).  The
best-count trigger uses the best server's bestCount after its `+= 2`; the
anti-flap gate compares the updated best and current bestCount values as C
ints; the RTT thresholds use the (unchanged) averaged RTTs.  Returns the
server table afterwards and whether the switch is taken. -/
def probeDecision (servers : List ProbeSrv) (bestIdx currentIdx randVal absThreshold : Nat)
    (factor : Nat → Nat) : List ProbeSrv × Bool :=
  let cur := servers.getD currentIdx default
  let best := servers.getD bestIdx default
  let servers2 := probeUpd cur bestIdx 0 servers
  let best2 := servers2.getD bestIdx default
  let cur2 := servers2.getD currentIdx default
  let ds0 : Bool := decide (12 < best2.bestCount) && decide (best.rtt < cur.rtt)
      && decide (randVal % 50 < best2.bestCount)
  let ds1 : Bool := ds0 && ! decide ((best2.bestCount : Int) - (cur2.bestCount : Int) < 8)
  let ds2 : Bool := ds1 || (decide (cur.rtt > best.rtt + absThreshold)
      || decide (factor cur.rtt > best.rtt + 1000))
  (if ds2 then resetOthers bestIdx 0 servers2 else servers2, ds2)

/-- Three servers for the best-count evolution: A (rtt 100), B (rtt 50,
the current server), C (rtt 10); all best counts start at 0. -/
def c6servers : List ProbeSrv := [⟨100, 0, 0⟩, ⟨50, 0, 0⟩, ⟨10, 0, 0⟩]

/-- One probe round of `c6servers` with the given best index: current
server B (index 1), `rand() % 50 = 49`, `RTT_ABSOLUTE_THRESHOLD = 80000`,
`RTT_THRESHOLD_FACTOR(us) = us * 2 / 3` (the upstream defaults). -/
def c6round (st : List ProbeSrv) (bIdx : Nat) : List ProbeSrv :=
  (probeDecision st bIdx 1 49 80000 (fun us => us * 2 / 3)).1

/-! ### Arithmetic and bitwise helper lemmas -/

theorem land_seven (x : Nat) : x &&& 7 = x % 8 := by
  apply Nat.eq_of_testBit_eq
  intro i
  rw [Nat.testBit_and, show (8 : Nat) = 2 ^ 3 from rfl, Nat.testBit_mod_two_pow,
    show (7 : Nat) = 2 ^ 3 - 1 from rfl, Nat.testBit_two_pow_sub_one, Bool.and_comm]

theorem shiftRight_twelve (x : Nat) : x >>> 12 = x / 4096 := by
  rw [Nat.shiftRight_eq_div_pow]

theorem shiftRight_fifteen (x : Nat) : x >>> 15 = x / 32768 := by
  rw [Nat.shiftRight_eq_div_pow]

theorem blockAlignDown_eq (x : Nat) : blockAlignDown x = 4096 * (x / 4096) := by
  rw [blockAlignDown, Nat.shiftLeft_eq, shiftRight_twelve]
  ring

theorem blockAlignUp_eq (x : Nat) : blockAlignUp x = 4096 * ((x + 4095) / 4096) := by
  rw [blockAlignUp, Nat.shiftLeft_eq, shiftRight_twelve]
  norm_num [DNBD3_BLOCK_SIZE]
  ring

theorem testBit_one_shiftLeft (i j : Nat) :
    Nat.testBit (1 <<< i) j = decide (i = j) := by
  rw [Nat.shiftLeft_eq, one_mul]
  by_cases h : i = j
  · subst h
    simp [Nat.testBit_two_pow_self]
  · simp [Nat.testBit_two_pow_of_ne h, h]

/-- When the byte holding bit `x < 8` is or-ed with `1 << x`, bit `j < 8`
of the byte reads as "was set, or `j = x`". -/
theorem testBit_or_mask (b x j : Nat) :
    Nat.testBit (b ||| (1 <<< x)) j = (Nat.testBit b j || decide (x = j)) := by
  rw [Nat.testBit_or, testBit_one_shiftLeft]

/-- When the byte is and-ed with `~(1 << x)` (as a `uint8_t`, i.e. with
`255 ^ (1 << x)`), bit `j < 8` reads as "was set, and `j ≠ x`". -/
theorem testBit_and_mask (b x j : Nat) (_hx : x < 8) (hj : j < 8) :
    Nat.testBit (b &&& (255 ^^^ (1 <<< x))) j = (Nat.testBit b j && decide (x ≠ j)) := by
  rw [Nat.testBit_and, Nat.testBit_xor, testBit_one_shiftLeft,
    show (255 : Nat) = 2 ^ 8 - 1 from rfl, Nat.testBit_two_pow_sub_one]
  by_cases h : x = j <;> simp [h, hj]

/-- `setCacheBit` at byte position `pos` changes exactly the presence bit
of block `pos >> 12`. -/
theorem mapBit_setCacheBit (set : Bool) (m : Nat → Nat) (pos k : Nat) :
    mapBit (setCacheBit set m pos) k =
      if k = pos >>> 12 then set else mapBit m k := by
  have hby : pos >>> 15 = (pos >>> 12) / 8 := by
    rw [shiftRight_fifteen, shiftRight_twelve]
    omega
  have hsplit : k = pos >>> 12 ↔ (k / 8 = (pos >>> 12) / 8 ∧ k % 8 = (pos >>> 12) % 8) := by
    omega
  rw [mapBit, setCacheBit, hby, land_seven]
  by_cases hb : k / 8 = (pos >>> 12) / 8
  · rw [if_pos hb]
    cases set with
    | true =>
        rw [if_pos rfl, testBit_or_mask]
        by_cases hx : k % 8 = (pos >>> 12) % 8
        · have hk : k = pos >>> 12 := hsplit.mpr ⟨hb, hx⟩
          simp [hk, hx]
        · have hk : ¬ k = pos >>> 12 := fun h => hx (hsplit.mp h).2
          have hne : ¬ ((pos >>> 12) % 8 = k % 8) := fun h => hx h.symm
          simp [hk, hne, mapBit, hb]
    | false =>
        rw [if_neg (by simp), testBit_and_mask _ _ _ (Nat.mod_lt _ (by norm_num)) (Nat.mod_lt _ (by norm_num))]
        by_cases hx : k % 8 = (pos >>> 12) % 8
        · have hk : k = pos >>> 12 := hsplit.mpr ⟨hb, hx⟩
          simp [hk, hx]
        · have hk : ¬ k = pos >>> 12 := fun h => hx (hsplit.mp h).2
          have hne : ¬ ((pos >>> 12) % 8 = k % 8) := fun h => hx h.symm
          simp [hk, hne, mapBit, hb]
  · have hk : ¬ k = pos >>> 12 := fun h => hb (hsplit.mp h).1
    rw [if_neg hb, if_neg hk]
    rfl

/-- The update loop starting at `pos` and running `n` iterations touches
exactly the presence bits of blocks `pos >> 12, …, pos >> 12 + n - 1`. -/
theorem mapBit_cachemapLoop (set : Bool) :
    ∀ (n : Nat) (m : Nat → Nat) (pos k : Nat),
      mapBit (cachemapLoop set n m pos) k =
        if pos >>> 12 ≤ k ∧ k < pos >>> 12 + n then set else mapBit m k := by
  intro n
  induction n with
  | zero =>
      intro m pos k
      rw [cachemapLoop, if_neg (by omega)]
  | succ n ih =>
      intro m pos k
      rw [cachemapLoop, ih, mapBit_setCacheBit]
      have h1 : (pos + DNBD3_BLOCK_SIZE) >>> 12 = pos >>> 12 + 1 := by
        simp only [DNBD3_BLOCK_SIZE, shiftRight_twelve]
        omega
      rw [h1]
      by_cases hlow : k = pos >>> 12
      · subst hlow
        rw [if_neg (by omega), if_pos rfl, if_pos (by omega)]
      · by_cases hin : pos >>> 12 + 1 ≤ k ∧ k < pos >>> 12 + 1 + n
        · rw [if_pos hin, if_pos (by omega)]
        · rw [if_neg hin, if_neg hlow, if_neg (by omega)]

/-- Characterisation of `image_updateCachemap` with `set = true` on an
image that still has a cache map: the presence bit of block `k` afterwards
is "was present, or block `k` lies entirely inside `[start, end_)`". -/
theorem updateCachemap_set_bit (img : Image) (m : Nat → Nat) (start end_ k : Nat)
    (hm : img.cacheMap = some m) :
    cmBit (image_updateCachemap img start end_ true) k =
      (mapBit m k || decide (start ≤ 4096 * k ∧ 4096 * k + 4096 ≤ end_)) := by
  have hs := blockAlignUp_eq start
  have he := blockAlignDown_eq end_
  simp only [image_updateCachemap, hm]
  by_cases hge : blockAlignUp start ≥ blockAlignDown end_
  · rw [if_pos hge]
    have hout : ¬ (start ≤ 4096 * k ∧ 4096 * k + 4096 ≤ end_) := by omega
    simp [cmBit, hm, hout]
  · rw [if_neg hge]
    simp only [cmBit, mapBit_cachemapLoop]
    have hsr : blockAlignUp start >>> 12 = (start + 4095) / 4096 := by
      rw [shiftRight_twelve, hs]; omega
    rw [hsr]
    have hcount : (start + 4095) / 4096 + (blockAlignDown end_ - blockAlignUp start) / DNBD3_BLOCK_SIZE
        = end_ / 4096 := by
      simp only [DNBD3_BLOCK_SIZE]; omega
    rw [hcount]
    by_cases hin : start ≤ 4096 * k ∧ 4096 * k + 4096 ≤ end_
    · rw [if_pos (by omega)]
      simp [hin]
    · rw [if_neg (by omega)]
      simp [hin]

/-- Characterisation of `image_updateCachemap` with `set = false` on an
image that still has a cache map: the presence bit of block `k` afterwards
is "was present, and block `k` is outside the outward-rounded range". -/
theorem updateCachemap_clear_bit (img : Image) (m : Nat → Nat) (start end_ k : Nat)
    (hm : img.cacheMap = some m) :
    cmBit (image_updateCachemap img start end_ false) k =
      (mapBit m k && ! decide (4096 * k < end_ ∧ start < 4096 * k + 4096)) := by
  have hs := blockAlignDown_eq start
  have he := blockAlignUp_eq end_
  simp only [image_updateCachemap, hm]
  by_cases hge : blockAlignDown start ≥ blockAlignUp end_
  · rw [if_pos hge]
    have hout : ¬ (4096 * k < end_ ∧ start < 4096 * k + 4096) := by omega
    simp [cmBit, hm, hout]
  · rw [if_neg hge]
    simp only [cmBit, mapBit_cachemapLoop]
    have hsr : blockAlignDown start >>> 12 = start / 4096 := by
      rw [shiftRight_twelve, hs]; omega
    rw [hsr]
    have hcount : start / 4096 + (blockAlignUp end_ - blockAlignDown start) / DNBD3_BLOCK_SIZE
        = (end_ + 4095) / 4096 := by
      simp only [DNBD3_BLOCK_SIZE]; omega
    rw [hcount]
    by_cases hin : 4096 * k < end_ ∧ start < 4096 * k + 4096
    · rw [if_pos (by omega)]
      simp [hin]
    · rw [if_neg (by omega)]
      simp [hin]

/-- Setting-present on a complete image (no cache map) never changes the
image (`image_updateCachemap(true)` with `cache_map == NULL` returns after
a debug log). -/
theorem updateCachemap_none_set (img : Image) (start end_ : Nat)
    (hm : img.cacheMap = none) :
    image_updateCachemap img start end_ true = img := by
  simp only [image_updateCachemap, hm]
  by_cases hge : blockAlignUp start ≥ blockAlignDown end_
  · rw [if_pos hge]
  · rw [if_neg hge]

/-- Clearing on a complete image recreates an all-ones cache map and then
clears the requested blocks: afterwards the presence bit of block `k` is
"block `k` is outside the outward-rounded range". -/
theorem updateCachemap_none_clear_bit (img : Image) (start end_ k : Nat)
    (hm : img.cacheMap = none) (hne : blockAlignDown start < blockAlignUp end_) :
    cmBit (image_updateCachemap img start end_ false) k =
      ! decide (4096 * k < end_ ∧ start < 4096 * k + 4096) := by
  have hs := blockAlignDown_eq start
  have he := blockAlignUp_eq end_
  simp only [image_updateCachemap, hm]
  rw [if_neg (by omega)]
  simp only [cmBit, mapBit_cachemapLoop]
  have hsr : blockAlignDown start >>> 12 = start / 4096 := by
    rw [shiftRight_twelve, hs]; omega
  rw [hsr]
  have hcount : start / 4096 + (blockAlignUp end_ - blockAlignDown start) / DNBD3_BLOCK_SIZE
      = (end_ + 4095) / 4096 := by
    simp only [DNBD3_BLOCK_SIZE]; omega
  rw [hcount]
  have hall : mapBit (fun _ => (0xFF : Nat)) k = true := by
    rw [mapBit, show (0xFF : Nat) = 2 ^ 8 - 1 from rfl, Nat.testBit_two_pow_sub_one]
    simp [Nat.mod_lt k (show 0 < 8 by norm_num)]
  by_cases hin : 4096 * k < end_ ∧ start < 4096 * k + 4096
  · rw [if_pos (by omega)]
    simp [hin]
  · rw [if_neg (by omega)]
    rw [hall]
    simp [hin]

/-- Clearing on a complete image reinstates a cache map whenever the
outward-rounded range is non-empty. -/
theorem updateCachemap_none_clear_isSome (img : Image) (start end_ : Nat)
    (hm : img.cacheMap = none) (hne : blockAlignDown start < blockAlignUp end_) :
    (image_updateCachemap img start end_ false).cacheMap.isSome = true := by
  simp only [image_updateCachemap, hm]
  rw [if_neg (by omega)]
  rfl

/-! ### Completeness-scan helper lemmas -/

theorem foldl_or_shift (b : Nat) :
    (List.range b).foldl (fun a j => a ||| (1 <<< j)) 0 = 2 ^ b - 1 := by
  induction b with
  | zero => rfl
  | succ b ih =>
      rw [List.range_succ, List.foldl_append, ih]
      simp only [List.foldl_cons, List.foldl_nil]
      apply Nat.eq_of_testBit_eq
      intro i
      rw [Nat.testBit_or, testBit_one_shiftLeft, Nat.testBit_two_pow_sub_one,
        Nat.testBit_two_pow_sub_one]
      by_cases h1 : i < b
      · simp [h1, show i < b + 1 by omega]
      · by_cases h2 : b = i
        · simp [h1, h2]
        · simp [h1, h2, show ¬ i < b + 1 by omega]

theorem land_mask_iff (x b : Nat) :
    (x &&& (2 ^ b - 1) = 2 ^ b - 1) ↔ (∀ i, i < b → Nat.testBit x i = true) := by
  constructor
  · intro h i hib
    have := congrArg (fun t => Nat.testBit t i) h
    simpa [Nat.testBit_and, Nat.testBit_two_pow_sub_one, hib] using this
  · intro h
    apply Nat.eq_of_testBit_eq
    intro i
    rw [Nat.testBit_and, Nat.testBit_two_pow_sub_one]
    by_cases hi : i < b
    · simp [hi, h i hi]
    · simp [hi]

/-- Characterisation of the completeness scan for a 4 KiB-aligned,
non-zero image size `4096 * B`: the scan accepts exactly when every map
byte but the last is `0xFF` and, in the last byte, every bit whose block
index lies below `B` is set (the unused high bits of the last byte are not
inspected, i.e. treated as 1). -/
theorem cacheMapComplete_iff (m : Nat → Nat) (B : Nat) (hv : 0 < B) :
    (cacheMapComplete (4096 * B) m = true) ↔
      ((∀ j, j + 1 < IMGSIZE_TO_MAPBYTES (4096 * B) → m j = 0xFF) ∧
       (∀ k, 8 * (IMGSIZE_TO_MAPBYTES (4096 * B) - 1) ≤ k → 4096 * k < 4096 * B →
          Nat.testBit (m (IMGSIZE_TO_MAPBYTES (4096 * B) - 1))
            (k - 8 * (IMGSIZE_TO_MAPBYTES (4096 * B) - 1)) = true)) := by
  have hlen : IMGSIZE_TO_MAPBYTES (4096 * B) = (B + 7) / 8 := by
    simp only [IMGSIZE_TO_MAPBYTES, shiftRight_fifteen]
    omega
  have hblb : ((4096 * B) >>> 12) &&& 7 = B % 8 := by
    rw [shiftRight_twelve, land_seven]
    omega
  simp only [cacheMapComplete, hblb, hlen, Bool.and_eq_true, beq_iff_eq, List.all_eq_true,
    List.mem_range]
  constructor
  · rintro ⟨h1, h2⟩
    refine ⟨fun j hj => by simpa using h1 j (by omega), ?_⟩
    intro k hk1 hk2
    by_cases hr : B % 8 = 0
    · rw [if_pos hr] at h2
      have h3 := (land_mask_iff _ 8).mp (by exact_mod_cast h2)
      have : k - 8 * ((B + 7) / 8 - 1) < 8 := by omega
      exact h3 _ this
    · rw [if_neg hr, foldl_or_shift] at h2
      have h3 := (land_mask_iff _ (B % 8)).mp h2
      have : k - 8 * ((B + 7) / 8 - 1) < B % 8 := by omega
      exact h3 _ this
  · rintro ⟨h1, h2⟩
    refine ⟨fun j hj => by simp [h1 j (by omega)], ?_⟩
    by_cases hr : B % 8 = 0
    · rw [if_pos hr]
      refine (land_mask_iff _ 8).mpr ?_
      intro i hi
      have := h2 (8 * ((B + 7) / 8 - 1) + i) (by omega) (by omega)
      simpa using this
    · rw [if_neg hr, foldl_or_shift]
      refine (land_mask_iff _ (B % 8)).mpr ?_
      intro i hi
      have := h2 (8 * ((B + 7) / 8 - 1) + i) (by omega) (by omega)
      simpa using this

/-! ### Claims C1, C2, C8 -/

/-- C1 (amended): for an image with a cache map and `offset + length ≤
virtualFilesize`, setting present changes exactly the bits of the 4 KiB
blocks lying entirely inside `[offset, offset + length)` to 1 (the range
is contracted inward), and clearing changes exactly the bits of the blocks
`k` with `4096k < offset + length` and `offset < 4096(k+1)` to 0 (the
range is expanded outward; for a non-empty range these are exactly the
overlapping blocks, while a zero-length range at an unaligned offset still
covers the block containing the offset); all other bits are unchanged. -/
theorem claim_C1 (img : Image) (m : Nat → Nat) (start len k : Nat)
    (hm : img.cacheMap = some m) (hlen : start + len ≤ img.virtualFilesize) :
    cmBit (image_updateCachemap img start (start + len) true) k =
      (mapBit m k || decide (start ≤ 4096 * k ∧ 4096 * k + 4096 ≤ start + len)) ∧
    cmBit (image_updateCachemap img start (start + len) false) k =
      (mapBit m k && ! decide (4096 * k < start + len ∧ start < 4096 * k + 4096)) :=
  ⟨updateCachemap_set_bit img m start (start + len) k hm,
   updateCachemap_clear_bit img m start (start + len) k hm⟩

/-- C1 witness: the spec's boundary scenario.  `virtualFilesize = 12288`
(real size 9000 rounded up), a 3 KiB reply at offset 0 is marked present:
block 0 lies only partially inside `[0, 3072)`, so its bit stays 0. -/
theorem claim_C1_witness :
    (Image.mk 12288 (some (fun _ => 0)) (fun _ => 0)).cacheMap = some (fun _ => 0) ∧
    0 + 3072 ≤ 12288 ∧
    (cmBit (image_updateCachemap (Image.mk 12288 (some (fun _ => 0)) (fun _ => 0)) 0 (0 + 3072) true) 0 =
      (mapBit (fun _ => 0) 0 || decide (0 ≤ 4096 * 0 ∧ 4096 * 0 + 4096 ≤ 0 + 3072)) ∧
     cmBit (image_updateCachemap (Image.mk 12288 (some (fun _ => 0)) (fun _ => 0)) 0 (0 + 3072) false) 0 =
      (mapBit (fun _ => 0) 0 && ! decide (4096 * 0 < 0 + 3072 ∧ 0 < 4096 * 0 + 4096))) :=
  ⟨rfl, by omega, claim_C1 _ (fun _ => 0) 0 3072 0 rfl (by decide)⟩

/-- C1 counterexample to the claim as stated: the call `mark(100, 0,
present=false)` has an empty byte range `[100, 100)`, which no 4 KiB block
overlaps, yet the code expands the empty range outward to `[0, 4096)` and
clears the bit of block 0 (from 1 to 0). -/
theorem claim_C1_counterexample :
    cmBit (Image.mk 20480 (some (fun _ => 0xFF)) (fun _ => 0)) 0 = true ∧
    (∀ x, ¬ (100 ≤ x ∧ x < 100)) ∧
    cmBit (image_updateCachemap (Image.mk 20480 (some (fun _ => 0xFF)) (fun _ => 0)) 100 100 false) 0 = false :=
  ⟨by decide, fun x => by omega, by decide⟩

/-- C2: for an image with non-zero (4 KiB-aligned) virtual size and a
cache map, `image_isComplete` returns true iff every cache-map byte except
the last equals `0xFF` and the last byte has every bit set whose block
lies below `virtualFilesize` (its unused high bits are ignored, i.e.
treated as 1); and when it returns true the cache map is freed (set to
`none`) and the `.map` sidecar file is unlinked. -/
theorem claim_C2 (img : Image) (m : Nat → Nat) (B : Nat)
    (hB : img.virtualFilesize = 4096 * B) (hv : 0 < B) (hm : img.cacheMap = some m) :
    ((image_isComplete img).1 = true ↔
      ((∀ j, j + 1 < IMGSIZE_TO_MAPBYTES img.virtualFilesize → m j = 0xFF) ∧
       (∀ k, 8 * (IMGSIZE_TO_MAPBYTES img.virtualFilesize - 1) ≤ k →
          4096 * k < img.virtualFilesize →
          Nat.testBit (m (IMGSIZE_TO_MAPBYTES img.virtualFilesize - 1))
            (k - 8 * (IMGSIZE_TO_MAPBYTES img.virtualFilesize - 1)) = true))) ∧
    ((image_isComplete img).1 = true →
      (image_isComplete img).2.1.cacheMap = none ∧ (image_isComplete img).2.2 = true) := by
  have hv0 : img.virtualFilesize ≠ 0 := by omega
  simp only [image_isComplete, if_neg hv0, hm]
  cases hc : cacheMapComplete img.virtualFilesize m with
  | true =>
      rw [if_pos rfl]
      rw [hB] at hc
      have hchar := (cacheMapComplete_iff m B hv).mp hc
      refine ⟨⟨fun _ => ?_, fun _ => rfl⟩, fun _ => ⟨rfl, rfl⟩⟩
      rw [hB]
      exact hchar
  | false =>
      rw [if_neg (by simp)]
      refine ⟨⟨fun h => Bool.noConfusion h, fun h => ?_⟩, fun h => Bool.noConfusion h⟩
      rw [hB] at hc h
      have hc2 := (cacheMapComplete_iff m B hv).mpr h
      exact absurd (hc ▸ hc2) Bool.noConfusion

/-- C2 witness: the spec's tail-byte scenario.  `virtualFilesize = 20480`
(5 blocks), single-byte map `[0x1F]`: the image is complete, the map is
freed and the `.map` file unlinked. -/
theorem claim_C2_witness :
    (Image.mk 20480 (some (fun _ => 0x1F)) (fun _ => 0)).virtualFilesize = 4096 * 5 ∧
    (image_isComplete (Image.mk 20480 (some (fun _ => 0x1F)) (fun _ => 0))).1 = true ∧
    (((image_isComplete (Image.mk 20480 (some (fun _ => 0x1F)) (fun _ => 0))).1 = true ↔
      ((∀ j, j + 1 < IMGSIZE_TO_MAPBYTES 20480 → (fun _ => 0x1F : Nat → Nat) j = 0xFF) ∧
       (∀ k, 8 * (IMGSIZE_TO_MAPBYTES 20480 - 1) ≤ k → 4096 * k < 20480 →
          Nat.testBit ((fun _ => 0x1F : Nat → Nat) (IMGSIZE_TO_MAPBYTES 20480 - 1))
            (k - 8 * (IMGSIZE_TO_MAPBYTES 20480 - 1)) = true))) ∧
     ((image_isComplete (Image.mk 20480 (some (fun _ => 0x1F)) (fun _ => 0))).1 = true →
       (image_isComplete (Image.mk 20480 (some (fun _ => 0x1F)) (fun _ => 0))).2.1.cacheMap = none ∧
       (image_isComplete (Image.mk 20480 (some (fun _ => 0x1F)) (fun _ => 0))).2.2 = true)) :=
  ⟨rfl, by decide, claim_C2 _ (fun _ => 0x1F) 5 rfl (by omega) rfl⟩

/-- C8 (amended): a complete image (cache map `none`) stays complete under
set-present operations, which are no-ops; but marking a non-empty range
not-present (as the integrity checker does after a CRC mismatch)
reinstates a cache map — recreated as all-ones and then cleared on exactly
the outward-rounded range — so completeness is not permanent. -/
theorem claim_C8 (img : Image) (start end_ k : Nat) (hm : img.cacheMap = none) :
    image_updateCachemap img start end_ true = img ∧
    (blockAlignDown start < blockAlignUp end_ →
      (image_updateCachemap img start end_ false).cacheMap.isSome = true ∧
      cmBit (image_updateCachemap img start end_ false) k =
        ! decide (4096 * k < end_ ∧ start < 4096 * k + 4096)) :=
  ⟨updateCachemap_none_set img start end_ hm,
   fun hne => ⟨updateCachemap_none_clear_isSome img start end_ hm hne,
               updateCachemap_none_clear_bit img start end_ k hm hne⟩⟩

/-- C8 witness: on a complete image of 20480 bytes, a set-present call is
a no-op, while clearing `[0, 4096)` recreates a map and clears block 0. -/
theorem claim_C8_witness :
    (Image.mk 20480 none (fun _ => 0)).cacheMap = none ∧
    (image_updateCachemap (Image.mk 20480 none (fun _ => 0)) 0 4096 true = Image.mk 20480 none (fun _ => 0) ∧
     (blockAlignDown 0 < blockAlignUp 4096 →
       (image_updateCachemap (Image.mk 20480 none (fun _ => 0)) 0 4096 false).cacheMap.isSome = true ∧
       cmBit (image_updateCachemap (Image.mk 20480 none (fun _ => 0)) 0 4096 false) 0 =
         ! decide (4096 * 0 < 4096 ∧ 0 < 4096 * 0 + 4096))) :=
  ⟨rfl, claim_C8 _ 0 4096 0 rfl⟩

/-- C8 counterexample to the claim as stated: clearing `[0, 4096)` on a
complete image (cache map `none`) reinstates a cache map and marks block 0
not-present, so the image does not stay complete permanently. -/
theorem claim_C8_counterexample :
    (Image.mk 20480 none (fun _ => 0)).cacheMap = none ∧
    (image_updateCachemap (Image.mk 20480 none (fun _ => 0)) 0 4096 false).cacheMap.isSome = true ∧
    cmBit (image_updateCachemap (Image.mk 20480 none (fun _ => 0)) 0 4096 false) 0 = false :=
  ⟨rfl, by decide, by decide⟩

theorem updateCachemap_preserves_file (img : Image) (start end_ : Nat) (set : Bool) :
    (image_updateCachemap img start end_ set).file = img.file := by
  cases set with
  | true =>
      simp only [image_updateCachemap]
      split
      · rfl
      · cases himg : img.cacheMap <;> rfl
  | false =>
      simp only [image_updateCachemap]
      split
      · rfl
      · cases himg : img.cacheMap <;> rfl

/-! ### List access helper lemmas -/

theorem getD_set_of_ne {α : Type} (l : List α) (i j : Nat) (x d : α) (h : i ≠ j) :
    (l.set i x).getD j d = l.getD j d := by
  rw [List.getD_eq_getElem?_getD, List.getElem?_set_ne h, List.getD_eq_getElem?_getD]

theorem getD_set_self {α : Type} (l : List α) (i : Nat) (x d : α) (h : i < l.length) :
    (l.set i x).getD i d = x := by
  rw [List.getD_eq_getElem?_getD, List.getElem?_set_eq_of_lt x h]
  rfl

theorem getD_take_lt {α : Type} (l : List α) (n j : Nat) (d : α) (h : j < n) :
    (l.take n).getD j d = l.getD j d := by
  rw [List.getD_eq_getElem?_getD, List.getD_eq_getElem?_getD, List.getElem?_take, if_pos h]

/-! ### Uplink reply-dispatch lemmas -/

theorem writeBytes_getD (payload : List Nat) :
    ∀ (f : Nat → Nat) (off j : Nat),
      writeBytes f off payload j =
        if off ≤ j ∧ j < off + payload.length then payload.getD (j - off) 0 else f j := by
  induction payload with
  | nil =>
      intro f off j
      rw [writeBytes, List.length_nil, if_neg (by omega)]
  | cons b rest ih =>
      intro f off j
      rw [writeBytes, ih]
      simp only [List.length_cons]
      by_cases h1 : off + 1 ≤ j ∧ j < off + 1 + rest.length
      · rw [if_pos h1, if_pos (by omega)]
        have h2 : j - off = (j - (off + 1)) + 1 := by omega
        rw [h2]
        rfl
      · rw [if_neg h1]
        by_cases h2 : j = off
        · subst h2
          rw [if_pos rfl, if_pos (by omega), Nat.sub_self]
          rfl
        · rw [if_neg h2, if_neg (by omega)]

theorem markMatching_getD (start end_ qLen : Nat) :
    ∀ (l : List QueuedRequest) (i j : Nat),
      (markMatching start end_ qLen i l).getD j default =
        if i + j < qLen ∧ j < l.length ∧ replyMatches start end_ (l.getD j default)
        then { l.getD j default with status := ULR.processing }
        else l.getD j default := by
  intro l
  induction l with
  | nil =>
      intro i j
      rw [markMatching, if_neg (fun h => Nat.not_lt_zero j h.2.1)]
  | cons e rest ih =>
      intro i j
      cases j with
      | zero =>
          rw [markMatching]
          simp only [List.getD_cons_zero, List.length_cons, Nat.add_zero]
          by_cases hc : i < qLen ∧ replyMatches start end_ e
          · rw [if_pos hc, if_pos ⟨hc.1, Nat.succ_pos _, hc.2⟩]
          · rw [if_neg hc, if_neg (fun h => hc ⟨h.1, h.2.2⟩)]
      | succ j' =>
          rw [markMatching]
          simp only [List.getD_cons_succ, List.length_cons]
          rw [ih (i + 1) j']
          by_cases hc : i + 1 + j' < qLen ∧ j' < rest.length ∧
              replyMatches start end_ (rest.getD j' default)
          · rw [if_pos hc, if_pos ⟨by omega, by omega, hc.2.2⟩]
          · rw [if_neg hc, if_neg (fun h => hc ⟨by omega, by omega, h.2.2⟩)]

theorem default_status_free : (default : QueuedRequest).status = ULR.free := rfl

theorem mkSend_status_irrelevant (buf : List Nat) (start : Nat) (e : QueuedRequest) (s : ULR) :
    mkSend buf start { e with status := s } = mkSend buf start e := rfl

theorem dispatchLoop_sends (buf : List Nat) (start : Nat) :
    ∀ (i : Nat) (arr : List QueuedRequest) (qLen : Nat),
      (dispatchLoop buf start i arr qLen).sends =
        ((List.range i).filter
            (fun j => decide ((arr.getD j default).status = ULR.processing))).reverse.map
          (fun j => mkSend buf start (arr.getD j default)) := by
  intro i
  induction i with
  | zero => intro arr qLen; rfl
  | succ i ih =>
      intro arr qLen
      rw [List.range_succ, List.filter_append, List.reverse_append]
      by_cases hp : (arr.getD i default).status = ULR.processing
      · rw [dispatchLoop, if_pos hp]
        simp only []
        rw [ih]
        have harr : ∀ j, j < i →
            (arr.set i { arr.getD i default with status := ULR.free }).getD j default =
              arr.getD j default := by
          intro j hj
          exact getD_set_of_ne arr i j _ _ (by omega)
        have hfilter :
            (List.range i).filter
                (fun j => decide
                  (((arr.set i { arr.getD i default with status := ULR.free }).getD j default).status
                    = ULR.processing)) =
              (List.range i).filter
                (fun j => decide ((arr.getD j default).status = ULR.processing)) := by
          apply List.filter_congr
          intro j hj
          rw [harr j (List.mem_range.mp hj)]
        rw [hfilter]
        have hmap :
            (((List.range i).filter
                (fun j => decide ((arr.getD j default).status = ULR.processing))).reverse.map
              (fun j => mkSend buf start
                ((arr.set i { arr.getD i default with status := ULR.free }).getD j default))) =
            (((List.range i).filter
                (fun j => decide ((arr.getD j default).status = ULR.processing))).reverse.map
              (fun j => mkSend buf start (arr.getD j default))) := by
          apply List.map_congr_left
          intro j hj
          have hj2 : j < i := by
            have := List.mem_filter.mp (List.mem_reverse.mp hj)
            exact List.mem_range.mp this.1
          rw [harr j hj2]
        rw [hmap]
        have hone : List.filter
            (fun j => decide ((arr.getD j default).status = ULR.processing)) [i] = [i] := by
          rw [List.filter_cons, List.filter_nil, decide_eq_true hp, if_pos rfl]
        rw [hone]
        rfl
      · rw [dispatchLoop, if_neg hp, ih]
        have hone : List.filter
            (fun j => decide ((arr.getD j default).status = ULR.processing)) [i] = [] := by
          rw [List.filter_cons, List.filter_nil, decide_eq_false hp, if_neg Bool.false_ne_true]
        rw [hone]
        rfl

/-! ### Uplink request-scan lemmas -/

theorem uplinkScan_found_spec (start end_ : Nat) :
    ∀ (l : List QueuedRequest) (i : Nat) (f0 : Option Nat) (fd : Nat),
      (uplinkScan start end_ l i f0).2 = some fd →
      i ≤ fd ∧ fd - i < l.length ∧ covers start end_ (l.getD (fd - i) default) ∧
      ∀ f, (uplinkScan start end_ l i f0).1 = some f → f0 = some f ∨ (i ≤ f ∧ f < fd) := by
  intro l
  induction l with
  | nil =>
      intro i f0 fd h
      rw [uplinkScan] at h
      exact Option.noConfusion h
  | cons e rest ih =>
      intro i f0 fd h
      simp only [uplinkScan] at h
      by_cases hc : covers start end_ e
      · rw [if_pos hc] at h
        have hfd : fd = i := (Option.some_injective _ h).symm
        subst hfd
        have hfree' : (if f0 = none ∧ e.status = ULR.free then some fd else f0) = f0 := by
          rcases hc.1 with hs | hs <;>
            exact if_neg (fun hh => by rw [hs] at hh; exact ULR.noConfusion hh.2)
        refine ⟨Nat.le_refl _, by simp, by simpa using hc, ?_⟩
        intro f hf
        simp only [uplinkScan, if_pos hc, hfree'] at hf
        exact Or.inl hf
      · rw [if_neg hc] at h
        obtain ⟨h1, h2, h3, h4⟩ := ih (i + 1) _ fd h
        have hsub : fd - i = (fd - (i + 1)) + 1 := by omega
        refine ⟨by omega, by simp only [List.length_cons]; omega, ?_, ?_⟩
        · rw [hsub]
          simpa using h3
        · intro f hf
          simp only [uplinkScan, if_neg hc] at hf
          rcases h4 f hf with h5 | h5
          · by_cases h6 : f0 = none ∧ e.status = ULR.free
            · rw [if_pos h6] at h5
              have : f = i := (Option.some_injective _ h5).symm
              exact Or.inr ⟨by omega, by omega⟩
            · rw [if_neg h6] at h5
              exact Or.inl h5
          · exact Or.inr ⟨by omega, h5.2⟩

theorem uplinkScan_none_covers (start end_ : Nat) :
    ∀ (l : List QueuedRequest) (i : Nat) (f0 : Option Nat),
      (uplinkScan start end_ l i f0).2 = none →
      ∀ j, j < l.length → ¬ covers start end_ (l.getD j default) := by
  intro l
  induction l with
  | nil =>
      intro i f0 _ j hj
      exact absurd hj (Nat.not_lt_zero j)
  | cons e rest ih =>
      intro i f0 h j hj
      simp only [uplinkScan] at h
      by_cases hc : covers start end_ e
      · rw [if_pos hc] at h
        exact Option.noConfusion h
      · rw [if_neg hc] at h
        cases j with
        | zero => simpa using hc
        | succ j' =>
            have := ih (i + 1) _ h j' (by simpa [Nat.succ_lt_succ_iff] using hj)
            simpa using this

theorem uplinkScan_none_free_none (start end_ : Nat) :
    ∀ (l : List QueuedRequest) (i : Nat) (f0 : Option Nat),
      (uplinkScan start end_ l i f0).2 = none →
      (uplinkScan start end_ l i f0).1 = none →
      f0 = none ∧ ∀ j, j < l.length → (l.getD j default).status ≠ ULR.free := by
  intro l
  induction l with
  | nil =>
      intro i f0 _ h1
      rw [uplinkScan] at h1
      exact ⟨h1, fun j hj => absurd hj (Nat.not_lt_zero j)⟩
  | cons e rest ih =>
      intro i f0 h h1
      simp only [uplinkScan] at h h1
      by_cases hc : covers start end_ e
      · rw [if_pos hc] at h
        exact Option.noConfusion h
      · rw [if_neg hc] at h h1
        obtain ⟨hfree', hrest⟩ := ih (i + 1) _ h h1
        by_cases h6 : f0 = none ∧ e.status = ULR.free
        · rw [if_pos h6] at hfree'
          exact Option.noConfusion hfree'
        · rw [if_neg h6] at hfree'
          refine ⟨hfree', fun j hj => ?_⟩
          cases j with
          | zero =>
              intro hst
              exact h6 ⟨hfree', by simpa using hst⟩
          | succ j' =>
              have := hrest j' (by simpa [Nat.succ_lt_succ_iff] using hj)
              simpa using this

theorem uplinkScan_no_free_preserve (start end_ : Nat) :
    ∀ (l : List QueuedRequest) (i : Nat),
      (∀ j, j < l.length → (l.getD j default).status ≠ ULR.free) →
      (uplinkScan start end_ l i none).1 = none := by
  intro l
  induction l with
  | nil => intro i _; rfl
  | cons e rest ih =>
      intro i h
      have h0 : e.status ≠ ULR.free := by simpa using h 0 (by simp)
      simp only [uplinkScan, eq_self_iff_true, true_and]
      rw [if_neg h0]
      by_cases hc : covers start end_ e
      · rw [if_pos hc]
      · rw [if_neg hc]
        exact ih (i + 1) (fun j hj => by
          have := h (j + 1) (by simpa [Nat.succ_lt_succ_iff] using hj)
          simpa using this)

/-! ### Claims C4 and C5 -/

/-- C4: when `uplink_request` is called while the scan locates a covering
queue entry (state New or Pending, range containing `[start, start +
length)`) at index `fd`, and the call succeeds, the new request attaches:
it is entered in state Pending at slot `queueLen` — strictly greater than
`fd` — and the uplink thread is not signalled, so no separate upstream
`GET_BLOCK` is issued for it. -/
theorem claim_C4 (q : List QueuedRequest) (qLen client handle start length fd : Nat)
    (hcap : q.length = SERVER_MAX_UPLINK_QUEUE) (hqlen : qLen ≤ SERVER_MAX_UPLINK_QUEUE)
    (hfd : (uplinkScan start (start + length) (q.take qLen) 0 none).2 = some fd)
    (hsucc : (uplink_request q qLen client handle start length).success = true) :
    fd < qLen ∧ covers start (start + length) (q.getD fd default) ∧
    (uplink_request q qLen client handle start length).slot = some qLen ∧
    (uplink_request q qLen client handle start length).signaled = false ∧
    (uplink_request q qLen client handle start length).queue.getD qLen default =
      ⟨ULR.pending, start, start + length, handle, client⟩ ∧
    (uplink_request q qLen client handle start length).queueLen = qLen + 1 := by
  have htl : (q.take qLen).length = qLen := by
    rw [List.length_take]
    omega
  obtain ⟨_, hfdlen, hfdcov, hfree⟩ :=
    uplinkScan_found_spec start (start + length) (q.take qLen) 0 none fd hfd
  rw [Nat.sub_zero] at hfdlen hfdcov
  rw [htl] at hfdlen
  rw [getD_take_lt q qLen fd default hfdlen] at hfdcov
  have hna : needAppendFn (uplinkScan start (start + length) (q.take qLen) 0 none).1
      (uplinkScan start (start + length) (q.take qLen) 0 none).2 = true := by
    rw [hfd]
    cases hfree2 : (uplinkScan start (start + length) (q.take qLen) 0 none).1 with
    | none => rfl
    | some f =>
        rcases hfree f hfree2 with h | h
        · exact Option.noConfusion h
        · simp only [needAppendFn, decide_eq_true_eq]
          omega
  simp only [uplink_request, hna] at hsucc ⊢
  rw [if_pos trivial] at hsucc ⊢
  by_cases hfull : SERVER_MAX_UPLINK_QUEUE ≤ qLen
  · rw [if_pos hfull] at hsucc
    exact Bool.noConfusion hsucc
  · rw [if_neg hfull] at hsucc ⊢
    refine ⟨hfdlen, hfdcov, by rw [hfd], by rw [hfd]; simp, ?_, rfl⟩
    rw [getD_set_self q qLen _ default (by omega), hfd]
    simp

/-- C4 witness: the spec's coalescing scenario.  R1 `[0, 65536)` is
Pending at slot 0 of a queue of length 1; R2 `[4096, 8192)` arrives,
attaches at slot 1 in state Pending, without signalling the uplink. -/
theorem claim_C4_witness :
    ((List.replicate 64 (default : QueuedRequest)).set 0
        ⟨ULR.pending, 0, 65536, 11, 1⟩).length = SERVER_MAX_UPLINK_QUEUE ∧
    (uplinkScan 4096 (4096 + 4096)
        (((List.replicate 64 (default : QueuedRequest)).set 0
          ⟨ULR.pending, 0, 65536, 11, 1⟩).take 1) 0 none).2 = some 0 ∧
    (0 < 1 ∧ covers 4096 (4096 + 4096)
        (((List.replicate 64 (default : QueuedRequest)).set 0
          ⟨ULR.pending, 0, 65536, 11, 1⟩).getD 0 default) ∧
     (uplink_request ((List.replicate 64 (default : QueuedRequest)).set 0
          ⟨ULR.pending, 0, 65536, 11, 1⟩) 1 2 12 4096 4096).slot = some 1 ∧
     (uplink_request ((List.replicate 64 (default : QueuedRequest)).set 0
          ⟨ULR.pending, 0, 65536, 11, 1⟩) 1 2 12 4096 4096).signaled = false ∧
     (uplink_request ((List.replicate 64 (default : QueuedRequest)).set 0
          ⟨ULR.pending, 0, 65536, 11, 1⟩) 1 2 12 4096 4096).queue.getD 1 default =
       ⟨ULR.pending, 4096, 4096 + 4096, 12, 2⟩ ∧
     (uplink_request ((List.replicate 64 (default : QueuedRequest)).set 0
          ⟨ULR.pending, 0, 65536, 11, 1⟩) 1 2 12 4096 4096).queueLen = 1 + 1) :=
  ⟨by decide, by decide,
   claim_C4 _ 1 2 12 4096 4096 0 (by decide) (by decide) (by decide) (by decide)⟩

theorem uplink_request_len_le (q : List QueuedRequest) (qLen client handle start length : Nat)
    (h : qLen ≤ SERVER_MAX_UPLINK_QUEUE) :
    (uplink_request q qLen client handle start length).queueLen ≤ SERVER_MAX_UPLINK_QUEUE := by
  simp only [uplink_request]
  cases needAppendFn (uplinkScan start (start + length) (q.take qLen) 0 none).1
      (uplinkScan start (start + length) (q.take qLen) 0 none).2 with
  | true =>
      rw [if_pos rfl]
      by_cases hfull : SERVER_MAX_UPLINK_QUEUE ≤ qLen
      · rw [if_pos hfull]
        exact h
      · rw [if_neg hfull]
        simp only []
        omega
  | false =>
      rw [if_neg Bool.false_ne_true]
      cases (uplinkScan start (start + length) (q.take qLen) 0 none).1 with
      | none => exact h
      | some f => exact h

theorem uplink_request_fail_unchanged (q : List QueuedRequest)
    (qLen client handle start length : Nat)
    (hfail : (uplink_request q qLen client handle start length).success = false) :
    (uplink_request q qLen client handle start length).queue = q ∧
    (uplink_request q qLen client handle start length).queueLen = qLen := by
  simp only [uplink_request] at hfail ⊢
  cases hna : needAppendFn (uplinkScan start (start + length) (q.take qLen) 0 none).1
      (uplinkScan start (start + length) (q.take qLen) 0 none).2 with
  | true =>
      rw [hna] at hfail
      rw [if_pos rfl] at hfail ⊢
      by_cases hfull : SERVER_MAX_UPLINK_QUEUE ≤ qLen
      · rw [if_pos hfull]
        exact ⟨rfl, rfl⟩
      · rw [if_neg hfull] at hfail
        exact Bool.noConfusion hfail
  | false =>
      rw [hna] at hfail
      rw [if_neg Bool.false_ne_true] at hfail ⊢
      cases hfree : (uplinkScan start (start + length) (q.take qLen) 0 none).1 with
      | none =>
          rw [hfree] at hfail
          exact ⟨rfl, rfl⟩
      | some f =>
          rw [hfree] at hfail
          exact Bool.noConfusion hfail

theorem uplink_request_fail_iff (q : List QueuedRequest) (qLen client handle start length : Nat)
    (hcap : q.length = SERVER_MAX_UPLINK_QUEUE) (hqlen : qLen ≤ SERVER_MAX_UPLINK_QUEUE) :
    (uplink_request q qLen client handle start length).success = false ↔
      (SERVER_MAX_UPLINK_QUEUE ≤ qLen ∧
        ((∃ i, i < qLen ∧ covers start (start + length) (q.getD i default)) ∨
         (∀ i, i < qLen → (q.getD i default).status ≠ ULR.free))) := by
  have htl : (q.take qLen).length = qLen := by
    rw [List.length_take]
    omega
  cases hfd : (uplinkScan start (start + length) (q.take qLen) 0 none).2 with
  | some fd =>
      obtain ⟨_, hfdlen, hfdcov, hfree⟩ :=
        uplinkScan_found_spec start (start + length) (q.take qLen) 0 none fd hfd
      rw [Nat.sub_zero] at hfdlen hfdcov
      rw [htl] at hfdlen
      rw [getD_take_lt q qLen fd default hfdlen] at hfdcov
      have hna : needAppendFn (uplinkScan start (start + length) (q.take qLen) 0 none).1
          (uplinkScan start (start + length) (q.take qLen) 0 none).2 = true := by
        rw [hfd]
        cases hfree2 : (uplinkScan start (start + length) (q.take qLen) 0 none).1 with
        | none => rfl
        | some f =>
            rcases hfree f hfree2 with h | h
            · exact Option.noConfusion h
            · simp only [needAppendFn, decide_eq_true_eq]
              omega
      simp only [uplink_request, hna]
      rw [if_pos trivial]
      by_cases hfull : SERVER_MAX_UPLINK_QUEUE ≤ qLen
      · rw [if_pos hfull]
        exact ⟨fun _ => ⟨hfull, Or.inl ⟨fd, hfdlen, hfdcov⟩⟩, fun _ => rfl⟩
      · rw [if_neg hfull]
        exact ⟨fun hf => Bool.noConfusion hf, fun hcl => absurd hcl.1 hfull⟩
  | none =>
      have hnc : ∀ i, i < qLen → ¬ covers start (start + length) (q.getD i default) := by
        intro i hi
        have := uplinkScan_none_covers start (start + length) (q.take qLen) 0 none hfd i
          (by omega)
        rwa [getD_take_lt q qLen i default hi] at this
      cases hfree : (uplinkScan start (start + length) (q.take qLen) 0 none).1 with
      | none =>
          have hnf := uplinkScan_none_free_none start (start + length) (q.take qLen) 0 none
            hfd hfree
          have hna : needAppendFn (uplinkScan start (start + length) (q.take qLen) 0 none).1
              (uplinkScan start (start + length) (q.take qLen) 0 none).2 = true := by
            rw [hfree, hfd]
            rfl
          simp only [uplink_request, hna]
          rw [if_pos trivial]
          by_cases hfull : SERVER_MAX_UPLINK_QUEUE ≤ qLen
          · rw [if_pos hfull]
            refine ⟨fun _ => ⟨hfull, Or.inr fun i hi => ?_⟩, fun _ => rfl⟩
            have hfi := hnf.2 i (by rw [htl]; exact hi)
            rwa [getD_take_lt q qLen i default hi] at hfi
          · rw [if_neg hfull]
            exact ⟨fun hf => Bool.noConfusion hf, fun hcl => absurd hcl.1 hfull⟩
      | some f =>
          have hna : needAppendFn (uplinkScan start (start + length) (q.take qLen) 0 none).1
              (uplinkScan start (start + length) (q.take qLen) 0 none).2 = false := by
            rw [hfree, hfd]
            rfl
          simp only [uplink_request, hna]
          rw [if_neg (by simp), hfree]
          refine ⟨fun hf => Bool.noConfusion hf, ?_⟩
          rintro ⟨hfull, hcase | hnofree⟩
          · obtain ⟨i, hi, hci⟩ := hcase
            exact absurd hci (hnc i hi)
          · have : (uplinkScan start (start + length) (q.take qLen) 0 none).1 = none := by
              apply uplinkScan_no_free_preserve
              intro j hj
              have hj2 : j < qLen := by omega
              rw [getD_take_lt q qLen j default hj2]
              exact hnofree j hj2
            rw [this] at hfree
            exact Option.noConfusion hfree

theorem uplinkRequestFold_le :
    ∀ (reqs : List (Nat × Nat × Nat × Nat)) (st : List QueuedRequest × Nat),
      st.2 ≤ SERVER_MAX_UPLINK_QUEUE →
      (reqs.foldl uplinkRequestFold st).2 ≤ SERVER_MAX_UPLINK_QUEUE := by
  intro reqs
  induction reqs with
  | nil => intro st h; exact h
  | cons r rest ih =>
      intro st h
      rw [List.foldl_cons]
      exact ih _ (uplink_request_len_le st.1 st.2 r.1 r.2.1 r.2.2.1 r.2.2.2 h)

/-- C5 (amended): `uplink_request` fails (dropping the client) iff the
queue already holds `SERVER_MAX_UPLINK_QUEUE` entries and either a
covering entry exists (in which case free slots are never reused — the
scan stops at the covering entry, so even a free slot with a higher index
does not prevent the failure) or no free slot exists at all; on failure
the queue contents and length are unchanged; and under any sequence of
`uplink_request` calls the queue length never exceeds the capacity. -/
theorem claim_C5 (q : List QueuedRequest) (qLen client handle start length : Nat)
    (hcap : q.length = SERVER_MAX_UPLINK_QUEUE) (hqlen : qLen ≤ SERVER_MAX_UPLINK_QUEUE) :
    ((uplink_request q qLen client handle start length).success = false ↔
      (SERVER_MAX_UPLINK_QUEUE ≤ qLen ∧
        ((∃ i, i < qLen ∧ covers start (start + length) (q.getD i default)) ∨
         (∀ i, i < qLen → (q.getD i default).status ≠ ULR.free)))) ∧
    ((uplink_request q qLen client handle start length).success = false →
      (uplink_request q qLen client handle start length).queue = q ∧
      (uplink_request q qLen client handle start length).queueLen = qLen) ∧
    (∀ reqs : List (Nat × Nat × Nat × Nat),
      (reqs.foldl uplinkRequestFold (q, qLen)).2 ≤ SERVER_MAX_UPLINK_QUEUE) :=
  ⟨uplink_request_fail_iff q qLen client handle start length hcap hqlen,
   uplink_request_fail_unchanged q qLen client handle start length,
   fun reqs => uplinkRequestFold_le reqs (q, qLen) hqlen⟩

/-- C5 witness: on an empty queue (length 0) of capacity 64, a request
succeeds, so the failure condition is not met, the queue grows to 1, and
any sequence of further requests keeps the length within 64. -/
theorem claim_C5_witness :
    (List.replicate 64 (default : QueuedRequest)).length = SERVER_MAX_UPLINK_QUEUE ∧
    (((uplink_request (List.replicate 64 (default : QueuedRequest)) 0 1 10 0 4096).success
        = false ↔
      (SERVER_MAX_UPLINK_QUEUE ≤ 0 ∧
        ((∃ i, i < 0 ∧ covers 0 (0 + 4096)
            ((List.replicate 64 (default : QueuedRequest)).getD i default)) ∨
         (∀ i, i < 0 →
            ((List.replicate 64 (default : QueuedRequest)).getD i default).status
              ≠ ULR.free)))) ∧
     ((uplink_request (List.replicate 64 (default : QueuedRequest)) 0 1 10 0 4096).success
        = false →
      (uplink_request (List.replicate 64 (default : QueuedRequest)) 0 1 10 0 4096).queue
        = List.replicate 64 (default : QueuedRequest) ∧
      (uplink_request (List.replicate 64 (default : QueuedRequest)) 0 1 10 0 4096).queueLen
        = 0) ∧
     (∀ reqs : List (Nat × Nat × Nat × Nat),
        (reqs.foldl uplinkRequestFold (List.replicate 64 (default : QueuedRequest), 0)).2
          ≤ SERVER_MAX_UPLINK_QUEUE)) :=
  ⟨by decide, claim_C5 _ 0 1 10 0 4096 (by decide) (by decide)⟩

/-- C5 counterexample to the claim as stated: a full queue (`queueLen =
64`) whose slot 0 covers the request `[4096, 8192)` and whose slot 5 is
Free.  A free slot with index greater than the covering entry exists, yet
the request fails, because the scan breaks at the covering entry and the
append is refused — the claim's "usable slot" condition wrongly predicts
success here. -/
theorem claim_C5_counterexample :
    (uplink_request c5queue 64 3 9 4096 4096).success = false ∧
    covers 4096 (4096 + 4096) (c5queue.getD 0 default) ∧
    (c5queue.getD 5 default).status = ULR.free ∧ 0 < 5 ∧ 5 < 64 :=
  ⟨by decide, by decide, by decide, by decide, by decide⟩

theorem dispatchLoop_queue_getD (buf : List Nat) (start : Nat) :
    ∀ (i : Nat) (arr : List QueuedRequest) (qLen j : Nat),
      (dispatchLoop buf start i arr qLen).queue.getD j default =
        if j < i ∧ (arr.getD j default).status = ULR.processing
        then { arr.getD j default with status := ULR.free }
        else arr.getD j default := by
  intro i
  induction i with
  | zero =>
      intro arr qLen j
      rw [dispatchLoop, if_neg (fun h => Nat.not_lt_zero j h.1)]
  | succ i ih =>
      intro arr qLen j
      by_cases hp : (arr.getD i default).status = ULR.processing
      · rw [dispatchLoop, if_pos hp]
        simp only []
        rw [ih]
        have hil : i < arr.length := by
          by_contra hge
          rw [List.getD_eq_default _ _ (by omega)] at hp
          exact ULR.noConfusion (default_status_free ▸ hp)
        rcases Nat.lt_trichotomy j i with hj | hj | hj
        · rw [getD_set_of_ne arr i j _ _ (by omega)]
          by_cases hq : (arr.getD j default).status = ULR.processing
          · rw [if_pos ⟨hj, hq⟩, if_pos ⟨by omega, hq⟩]
          · rw [if_neg (fun h => hq h.2), if_neg (fun h => hq h.2)]
        · subst hj
          rw [if_neg (by omega)]
          rw [getD_set_self arr j _ _ hil]
          rw [if_pos ⟨by omega, hp⟩]
        · rw [getD_set_of_ne arr i j _ _ (by omega)]
          rw [if_neg (by omega), if_neg (by omega)]
      · rw [dispatchLoop, if_neg hp, ih]
        rcases Nat.lt_trichotomy j i with hj | hj | hj
        · by_cases hq : (arr.getD j default).status = ULR.processing
          · rw [if_pos ⟨hj, hq⟩, if_pos ⟨by omega, hq⟩]
          · rw [if_neg (fun h => hq h.2), if_neg (fun h => hq h.2)]
        · subst hj
          rw [if_neg (fun h => hp h.2), if_neg (fun h => hp h.2)]
        · rw [if_neg (by omega), if_neg (by omega)]

/-! ### Claim C3 -/

/-- C3: on receipt of a GET_BLOCK reply covering `[start, start +
payload.length)` (with no entry already in Processing — the handler's
assertion): the payload is written to the backing file at offset `start`;
the cache map is marked present exactly for the 4 KiB blocks fully inside
the written range; exactly those queue entries in state Pending with
`from ≥ start` and `to ≤ end` are answered — the send list walks them in
decreasing slot order, each send carrying the entry's original handle and
only its own sub-slice of the receive buffer — and each answered entry
ends in state Free while every other entry is unchanged. -/
theorem claim_C3 (img : Image) (m : Nat → Nat) (arr : List QueuedRequest) (qLen start : Nat)
    (payload : List Nat)
    (hm : img.cacheMap = some m)
    (hsz : start + payload.length ≤ img.virtualFilesize)
    (hnp : ∀ j, j < qLen → (arr.getD j default).status ≠ ULR.processing) :
    (∀ j, (uplink_handle_receive_reply img arr qLen start payload).1.file j =
        if start ≤ j ∧ j < start + payload.length then payload.getD (j - start) 0
        else img.file j) ∧
    (∀ k, cmBit (uplink_handle_receive_reply img arr qLen start payload).1 k =
        (mapBit m k ||
          decide (start ≤ 4096 * k ∧ 4096 * k + 4096 ≤ start + payload.length))) ∧
    ((uplink_handle_receive_reply img arr qLen start payload).2.sends =
      ((List.range qLen).filter
          (fun j => decide (replyMatches start (start + payload.length)
            (arr.getD j default)))).reverse.map
        (fun j => mkSend payload start (arr.getD j default))) ∧
    (∀ j, (uplink_handle_receive_reply img arr qLen start payload).2.queue.getD j default =
        if j < qLen ∧ replyMatches start (start + payload.length) (arr.getD j default)
        then { arr.getD j default with status := ULR.free }
        else arr.getD j default) := by
  simp only [uplink_handle_receive_reply]
  refine ⟨?_, ?_, ?_, ?_⟩
  · intro j
    rw [updateCachemap_preserves_file]
    exact writeBytes_getD payload img.file start j
  · intro k
    exact updateCachemap_set_bit _ m start (start + payload.length) k hm
  · rw [dispatchLoop_sends]
    have hstat : ∀ j, j < qLen →
        ((((markMatching start (start + payload.length) qLen 0 arr).getD j default).status
            = ULR.processing) ↔
          replyMatches start (start + payload.length) (arr.getD j default)) := by
      intro j hj
      rw [markMatching_getD]
      by_cases hcond : 0 + j < qLen ∧ j < arr.length ∧
          replyMatches start (start + payload.length) (arr.getD j default)
      · rw [if_pos hcond]
        exact ⟨fun _ => hcond.2.2, fun _ => rfl⟩
      · rw [if_neg hcond]
        constructor
        · intro hp
          exact absurd hp (hnp j hj)
        · intro hmat
          by_cases hjl : j < arr.length
          · exact absurd ⟨by omega, hjl, hmat⟩ hcond
          · rw [List.getD_eq_default _ _ (by omega)] at hmat
            exact ULR.noConfusion hmat.1
    have hfilter : (List.range qLen).filter
        (fun j => decide
          ((((markMatching start (start + payload.length) qLen 0 arr).getD j default).status
            = ULR.processing))) =
        (List.range qLen).filter
          (fun j => decide (replyMatches start (start + payload.length)
            (arr.getD j default))) := by
      apply List.filter_congr
      intro j hj
      exact decide_eq_decide.mpr (hstat j (List.mem_range.mp hj))
    rw [hfilter]
    apply List.map_congr_left
    intro j hj
    have hmat : replyMatches start (start + payload.length) (arr.getD j default) :=
      of_decide_eq_true (List.mem_filter.mp (List.mem_reverse.mp hj)).2
    have hj2 : j < qLen :=
      List.mem_range.mp (List.mem_filter.mp (List.mem_reverse.mp hj)).1
    have hjl : j < arr.length := by
      by_contra hge
      rw [List.getD_eq_default _ _ (by omega)] at hmat
      exact ULR.noConfusion hmat.1
    rw [markMatching_getD, if_pos ⟨by omega, hjl, hmat⟩]
    rfl
  · intro j
    rw [dispatchLoop_queue_getD]
    by_cases hj : j < qLen
    · by_cases hmat : replyMatches start (start + payload.length) (arr.getD j default)
      · have hjl : j < arr.length := by
          by_contra hge
          rw [List.getD_eq_default _ _ (by omega)] at hmat
          exact ULR.noConfusion hmat.1
        have h2 : (markMatching start (start + payload.length) qLen 0 arr).getD j default =
            { arr.getD j default with status := ULR.processing } := by
          rw [markMatching_getD, if_pos ⟨by omega, hjl, hmat⟩]
        rw [h2, if_pos ⟨hj, rfl⟩, if_pos ⟨hj, hmat⟩]
      · have h2 : (markMatching start (start + payload.length) qLen 0 arr).getD j default =
            arr.getD j default := by
          rw [markMatching_getD, if_neg (fun h => hmat h.2.2)]
        rw [h2, if_neg (fun h => (hnp j hj) h.2), if_neg (fun h => hmat h.2)]
    · have h2 : (markMatching start (start + payload.length) qLen 0 arr).getD j default =
          arr.getD j default := by
        rw [markMatching_getD, if_neg (fun h => hj (by omega))]
      rw [h2, if_neg (fun h => hj h.1), if_neg (fun h => hj h.1)]

/-- C3 witness: a reply for `[0, 8192)` with three queue entries: slot 0
Pending `[0, 4096)` handle 7, slot 1 Pending `[0, 8192)` handle 8, slot 2
Pending `[4096, 12288)` handle 9 (not contained in the reply).  Slots 1
and 0 are answered in that (decreasing) order with their own slices and
set Free; slot 2 is untouched. -/
theorem claim_C3_witness :
    (Image.mk 16384 (some (fun _ => 0)) (fun _ => 0)).cacheMap = some (fun _ => 0) ∧
    0 + (List.replicate 8192 5).length ≤ 16384 ∧
    ((∀ j, (uplink_handle_receive_reply (Image.mk 16384 (some (fun _ => 0)) (fun _ => 0))
          [⟨ULR.pending, 0, 4096, 7, 1⟩, ⟨ULR.pending, 0, 8192, 8, 2⟩,
           ⟨ULR.pending, 4096, 12288, 9, 3⟩] 3 0 (List.replicate 8192 5)).1.file j =
        if 0 ≤ j ∧ j < 0 + (List.replicate 8192 5).length
        then (List.replicate 8192 5).getD (j - 0) 0
        else (Image.mk 16384 (some (fun _ => 0)) (fun _ => 0)).file j) ∧
     (∀ k, cmBit (uplink_handle_receive_reply (Image.mk 16384 (some (fun _ => 0)) (fun _ => 0))
          [⟨ULR.pending, 0, 4096, 7, 1⟩, ⟨ULR.pending, 0, 8192, 8, 2⟩,
           ⟨ULR.pending, 4096, 12288, 9, 3⟩] 3 0 (List.replicate 8192 5)).1 k =
        (mapBit (fun _ => 0) k ||
          decide (0 ≤ 4096 * k ∧ 4096 * k + 4096 ≤ 0 + (List.replicate 8192 5).length))) ∧
     ((uplink_handle_receive_reply (Image.mk 16384 (some (fun _ => 0)) (fun _ => 0))
          [⟨ULR.pending, 0, 4096, 7, 1⟩, ⟨ULR.pending, 0, 8192, 8, 2⟩,
           ⟨ULR.pending, 4096, 12288, 9, 3⟩] 3 0 (List.replicate 8192 5)).2.sends =
      ((List.range 3).filter
          (fun j => decide (replyMatches 0 (0 + (List.replicate 8192 5).length)
            ([⟨ULR.pending, 0, 4096, 7, 1⟩, ⟨ULR.pending, 0, 8192, 8, 2⟩,
              (⟨ULR.pending, 4096, 12288, 9, 3⟩ : QueuedRequest)].getD j default)))).reverse.map
        (fun j => mkSend (List.replicate 8192 5) 0
          ([⟨ULR.pending, 0, 4096, 7, 1⟩, ⟨ULR.pending, 0, 8192, 8, 2⟩,
            (⟨ULR.pending, 4096, 12288, 9, 3⟩ : QueuedRequest)].getD j default))) ∧
     (∀ j, (uplink_handle_receive_reply (Image.mk 16384 (some (fun _ => 0)) (fun _ => 0))
          [⟨ULR.pending, 0, 4096, 7, 1⟩, ⟨ULR.pending, 0, 8192, 8, 2⟩,
           ⟨ULR.pending, 4096, 12288, 9, 3⟩] 3 0 (List.replicate 8192 5)).2.queue.getD j default =
        if j < 3 ∧ replyMatches 0 (0 + (List.replicate 8192 5).length)
            ([⟨ULR.pending, 0, 4096, 7, 1⟩, ⟨ULR.pending, 0, 8192, 8, 2⟩,
              (⟨ULR.pending, 4096, 12288, 9, 3⟩ : QueuedRequest)].getD j default)
        then { [⟨ULR.pending, 0, 4096, 7, 1⟩, ⟨ULR.pending, 0, 8192, 8, 2⟩,
                (⟨ULR.pending, 4096, 12288, 9, 3⟩ : QueuedRequest)].getD j default
               with status := ULR.free }
        else [⟨ULR.pending, 0, 4096, 7, 1⟩, ⟨ULR.pending, 0, 8192, 8, 2⟩,
              (⟨ULR.pending, 4096, 12288, 9, 3⟩ : QueuedRequest)].getD j default)) :=
  ⟨rfl, by rw [List.length_replicate]; omega, claim_C3 _ (fun _ => 0) _ 3 0 (List.replicate 8192 5) rfl
    (by rw [List.length_replicate]; exact (by omega : 0 + 8192 ≤ 16384)) (by decide)⟩

/-! ### Integrity checker lemmas and claims C7, C10 -/

theorem integrityScan_dup (img blk : Nat) :
    ∀ (l : List CheckQueueEntry) (i : Nat) (free : Option Nat),
      (∃ j, j < l.length ∧ l.getD j default = ⟨some img, blk⟩) →
      (integrityScan img blk l i free).1 = true := by
  intro l
  induction l with
  | nil =>
      intro i free hex
      obtain ⟨j, hj, _⟩ := hex
      exact absurd hj (Nat.not_lt_zero j)
  | cons e rest ih =>
      intro i free hex
      obtain ⟨j, hj, hdup⟩ := hex
      simp only [integrityScan]
      cases j with
      | zero =>
          simp only [List.getD_cons_zero] at hdup
          subst hdup
          rw [if_neg (fun hh => Option.noConfusion hh.2), if_pos ⟨rfl, rfl⟩]
      | succ j' =>
          simp only [List.getD_cons_succ] at hdup
          have hj' : j' < rest.length := by
            simp only [List.length_cons] at hj
            omega
          by_cases h1 : free = none ∧ e.image = none
          · rw [if_pos h1]
            exact ih (i + 1) (some i) ⟨j', hj', hdup⟩
          · rw [if_neg h1]
            by_cases h2 : e.image = some img ∧ e.block = blk
            · rw [if_pos h2]
            · rw [if_neg h2]
              exact ih (i + 1) free ⟨j', hj', hdup⟩

theorem integrityScan_none (img blk : Nat) :
    ∀ (l : List CheckQueueEntry) (i : Nat) (f0 : Option Nat),
      (∀ j, j < l.length → (l.getD j default).image ≠ none) →
      (∀ j, j < l.length → l.getD j default ≠ ⟨some img, blk⟩) →
      integrityScan img blk l i f0 = (false, f0) := by
  intro l
  induction l with
  | nil => intro i f0 _ _; rfl
  | cons e rest ih =>
      intro i f0 hocc hnodup
      have h0img : e.image ≠ none := by simpa using hocc 0 (by simp)
      have h0dup : e ≠ ⟨some img, blk⟩ := by simpa using hnodup 0 (by simp)
      simp only [integrityScan]
      rw [if_neg (fun hh => h0img hh.2)]
      by_cases h2 : e.image = some img ∧ e.block = blk
      · exfalso
        apply h0dup
        rcases e with ⟨im, bl⟩
        rw [show im = some img from h2.1, show bl = blk from h2.2]
      · rw [if_neg h2]
        refine ih (i + 1) f0 (fun j hj => ?_) (fun j hj => ?_)
        · have := hocc (j + 1) (by simpa [Nat.succ_lt_succ_iff] using hj)
          simpa using this
        · have := hnodup (j + 1) (by simpa [Nat.succ_lt_succ_iff] using hj)
          simpa using this

/-- C7: an integrity check for an (image, hash-block) pair that is already
queued is not added a second time (the queue is returned unchanged and no
signal is raised); and when the background checker's CRC comparison of
hash block `b` fails, exactly the cache-map bits of the byte range
`[b·16 MiB, (b+1)·16 MiB)` — blocks `4096·b ≤ k < 4096·(b+1)` — are
cleared, while a matching CRC leaves the image unchanged. -/
theorem claim_C7 (arr : List CheckQueueEntry) (len imgId blk : Nat) (img : Image)
    (m : Nat → Nat) (b k : Nat)
    (hlen : len ≤ arr.length)
    (hdup : ∃ j, j < len ∧ arr.getD j default = ⟨some imgId, blk⟩)
    (hm : img.cacheMap = some m) :
    integrity_check arr len imgId blk = (arr, len, false) ∧
    integrity_checkStep img b true = img ∧
    cmBit (integrity_checkStep img b false) k =
      (mapBit m k && ! decide (4096 * b ≤ k ∧ k < 4096 * (b + 1))) := by
  refine ⟨?_, rfl, ?_⟩
  · obtain ⟨j, hj, hdupj⟩ := hdup
    have htl : (arr.take len).length = len := by
      rw [List.length_take]
      omega
    have hscan := integrityScan_dup imgId blk (arr.take len) 0 none
      ⟨j, by omega, by rw [getD_take_lt arr len j default hj]; exact hdupj⟩
    simp only [integrity_check, hscan]
    rw [if_pos trivial]
  · have hstep : integrity_checkStep img b false =
        image_updateCachemap img (b * HASH_BLOCK_SIZE) ((b + 1) * HASH_BLOCK_SIZE) false := by
      rw [integrity_checkStep, if_neg Bool.false_ne_true]
    rw [hstep, updateCachemap_clear_bit img m _ _ k hm]
    have hiff : (4096 * k < (b + 1) * HASH_BLOCK_SIZE ∧
        b * HASH_BLOCK_SIZE < 4096 * k + 4096) ↔ (4096 * b ≤ k ∧ k < 4096 * (b + 1)) := by
      rw [show HASH_BLOCK_SIZE = 16777216 from rfl]
      omega
    rw [decide_eq_decide.mpr hiff]

/-- C7 witness: a queue of length 1 already holding (image 1, block 2)
rejects the duplicate, and CRC outcomes on hash block 0 of a 20480-byte
image behave as claimed for block bit 0. -/
theorem claim_C7_witness :
    ((List.replicate 100 (default : CheckQueueEntry)).set 0 ⟨some 1, 2⟩).getD 0 default
      = ⟨some 1, 2⟩ ∧
    (integrity_check ((List.replicate 100 (default : CheckQueueEntry)).set 0 ⟨some 1, 2⟩)
        1 1 2 =
      ((List.replicate 100 (default : CheckQueueEntry)).set 0 ⟨some 1, 2⟩, 1, false) ∧
     integrity_checkStep (Image.mk 20480 (some (fun _ => 0xFF)) (fun _ => 0)) 0 true =
       Image.mk 20480 (some (fun _ => 0xFF)) (fun _ => 0) ∧
     cmBit (integrity_checkStep (Image.mk 20480 (some (fun _ => 0xFF)) (fun _ => 0)) 0 false) 0 =
       (mapBit (fun _ => 0xFF) 0 && ! decide (4096 * 0 ≤ 0 ∧ 0 < 4096 * (0 + 1)))) :=
  ⟨by decide,
   claim_C7 _ 1 1 2 _ (fun _ => 0xFF) 0 0 (by decide) ⟨0, by decide, by decide⟩ rfl⟩

/-- C10: when the check queue is full (all `CHECK_QUEUE_SIZE` slots
occupied, no free slot) and the (image, block) pair is not already queued,
`integrity_check` silently discards the request: the queue array and
length are unchanged and no signal is raised. -/
theorem claim_C10 (arr : List CheckQueueEntry) (len imgId blk : Nat)
    (harr : arr.length = CHECK_QUEUE_SIZE)
    (hfull : CHECK_QUEUE_SIZE ≤ len)
    (hocc : ∀ j, j < len → (arr.getD j default).image ≠ none)
    (hnodup : ∀ j, j < len → arr.getD j default ≠ ⟨some imgId, blk⟩) :
    integrity_check arr len imgId blk = (arr, len, false) := by
  have htake : arr.take len = arr := List.take_of_length_le (by omega)
  have hscan : integrityScan imgId blk (arr.take len) 0 none = (false, none) := by
    rw [htake]
    exact integrityScan_none imgId blk arr 0 none
      (fun j hj => hocc j (by omega)) (fun j hj => hnodup j (by omega))
  simp only [integrity_check, hscan]
  rw [if_neg (fun hh => Bool.noConfusion hh)]
  rw [if_pos hfull]

/-- C10 witness: a full queue of 100 occupied slots discards a request for
the not-yet-queued pair (image 1, block 2). -/
theorem claim_C10_witness :
    c10queue.length = CHECK_QUEUE_SIZE ∧ CHECK_QUEUE_SIZE ≤ 100 ∧
    integrity_check c10queue 100 1 2 = (c10queue, 100, false) :=
  ⟨by decide, by decide,
   claim_C10 c10queue 100 1 2 (by decide) (by decide) (by decide) (by decide)⟩

/-! ### Alt-server failure-accounting lemmas and claim C9 -/

theorem serverFailedScan_phase2 (h f : Nat) :
    ∀ (l : List AltServer) (i : Nat) (lastOk0 : Option Nat),
      (serverFailedScan h l i (some f) lastOk0).1 = some f ∧
      (∀ j, (serverFailedScan h l i (some f) lastOk0).2 = some j →
        lastOk0 = some j ∨ (i ≤ j ∧ j - i < l.length ∧
          (l.getD (j - i) default).host ≠ none ∧ (l.getD (j - i) default).numFails = 0)) := by
  intro l
  induction l with
  | nil =>
      intro i lastOk0
      exact ⟨rfl, fun j hj => Or.inl hj⟩
  | cons e rest ih =>
      intro i lastOk0
      simp only [serverFailedScan]
      refine ⟨(ih (i + 1) _).1, ?_⟩
      intro j hj
      rcases (ih (i + 1) _).2 j hj with hcase | hcase
      · by_cases hcond : e.host ≠ none ∧ e.numFails = 0
        · rw [if_pos hcond] at hcase
          have hji : i = j := Option.some_injective _ hcase
          subst hji
          exact Or.inr ⟨Nat.le_refl _, by simp, by simpa using hcond.1, by simpa using hcond.2⟩
        · rw [if_neg hcond] at hcase
          exact Or.inl hcase
      · obtain ⟨h1, h2, h3, h4⟩ := hcase
        have hsub : j - i = (j - (i + 1)) + 1 := by omega
        refine Or.inr ⟨by omega, by simp only [List.length_cons]; omega, ?_, ?_⟩
        · rw [hsub]
          simpa using h3
        · rw [hsub]
          simpa using h4

theorem serverFailedScan_phase1 (h : Nat) :
    ∀ (l : List AltServer) (i : Nat) (lastOk0 : Option Nat) (f : Nat),
      (serverFailedScan h l i none lastOk0).1 = some f →
      i ≤ f ∧ f - i < l.length ∧ (l.getD (f - i) default).host = some h ∧
      (∀ j, (serverFailedScan h l i none lastOk0).2 = some j →
        lastOk0 = some j ∨ (f < j ∧ j - i < l.length ∧
          (l.getD (j - i) default).host ≠ none ∧ (l.getD (j - i) default).numFails = 0)) := by
  intro l
  induction l with
  | nil =>
      intro i lastOk0 f hf
      exact Option.noConfusion hf
  | cons e rest ih =>
      intro i lastOk0 f hf
      simp only [serverFailedScan] at hf ⊢
      by_cases hhost : e.host = some h
      · rw [if_pos hhost] at hf ⊢
        have hp2 := serverFailedScan_phase2 h i rest (i + 1) lastOk0
        have hfi : i = f := Option.some_injective _ (hp2.1.symm.trans hf)
        subst hfi
        refine ⟨Nat.le_refl _, by simp, by simpa using hhost, ?_⟩
        intro j hj
        rcases hp2.2 j hj with hc | hc
        · exact Or.inl hc
        · obtain ⟨h1, h2, h3, h4⟩ := hc
          have hsub : j - i = (j - (i + 1)) + 1 := by omega
          refine Or.inr ⟨by omega, by simp only [List.length_cons]; omega, ?_, ?_⟩
          · rw [hsub]
            simpa using h3
          · rw [hsub]
            simpa using h4
      · rw [if_neg hhost] at hf ⊢
        obtain ⟨h1, h2, h3, h4⟩ := ih (i + 1) lastOk0 f hf
        have hsub : f - i = (f - (i + 1)) + 1 := by omega
        refine ⟨by omega, by simp only [List.length_cons]; omega, ?_, ?_⟩
        · rw [hsub]
          simpa using h3
        · intro j hj
          rcases h4 j hj with hc | hc
          · exact Or.inl hc
          · obtain ⟨hc1, hc2, hc3, hc4⟩ := hc
            have hsub2 : j - i = (j - (i + 1)) + 1 := by omega
            refine Or.inr ⟨by omega, by simp only [List.length_cons]; omega, ?_, ?_⟩
            · rw [hsub2]
              simpa using hc3
            · rw [hsub2]
              simpa using hc4

/-- C9: when `altservers_serverFailed` finds the named server (at index
`f`): if the previous failure is within the RTT-init window, the whole
table is left unchanged; if it is older, the server's fail count grows by
the fixed step `SERVER_UPLINK_FAIL_INCREASE` and its last-failure time is
set to `now` — the updated record sits at `f` when no later zero-failure
server exists, otherwise it is swapped to that server's index `j` (whose
old record moves to `f`), every other slot being untouched. -/
theorem claim_C9 (servers : List AltServer) (h now f k : Nat)
    (hf : (serverFailedScan h servers 0 none none).1 = some f) :
    (servers.getD f default).host = some h ∧
    (now - (servers.getD f default).lastFail ≤ SERVER_RTT_INTERVAL_INIT →
      altservers_serverFailed servers h now = servers) ∧
    (SERVER_RTT_INTERVAL_INIT < now - (servers.getD f default).lastFail →
      (((serverFailedScan h servers 0 none none).2 = none →
         (altservers_serverFailed servers h now).getD k default =
           (if k = f then { servers.getD f default with
               numFails := (servers.getD f default).numFails + SERVER_UPLINK_FAIL_INCREASE,
               lastFail := now }
            else servers.getD k default)) ∧
       (∀ j, (serverFailedScan h servers 0 none none).2 = some j →
         (altservers_serverFailed servers h now).getD k default =
           (if k = j then { servers.getD f default with
               numFails := (servers.getD f default).numFails + SERVER_UPLINK_FAIL_INCREASE,
               lastFail := now }
            else if k = f then servers.getD j default
            else servers.getD k default)))) := by
  obtain ⟨_, hfl, hfh, hlast⟩ := serverFailedScan_phase1 h servers 0 none f hf
  rw [Nat.sub_zero] at hfl hfh
  refine ⟨hfh, ?_, ?_⟩
  · intro hle
    simp only [altservers_serverFailed, hf]
    rw [if_neg (by omega)]
  · intro hgt
    constructor
    · intro h2
      simp only [altservers_serverFailed, hf, h2]
      rw [if_pos hgt]
      by_cases hk : k = f
      · subst hk
        rw [if_pos rfl, getD_set_self servers k _ default hfl]
      · rw [if_neg hk, getD_set_of_ne servers f k _ default (fun hh => hk hh.symm)]
    · intro j hj
      rcases hlast j hj with hc | hc
      · exact Option.noConfusion hc
      · obtain ⟨hfj, hjl, _, _⟩ := hc
        rw [Nat.sub_zero] at hjl
        have hjf : j ≠ f := by omega
        simp only [altservers_serverFailed, hf, hj]
        rw [if_pos hgt]
        have hlen1 : (servers.set f { servers.getD f default with
            numFails := (servers.getD f default).numFails + SERVER_UPLINK_FAIL_INCREASE,
            lastFail := now }).length = servers.length := List.length_set servers f _
        by_cases hkj : k = j
        · subst hkj
          rw [if_pos rfl]
          rw [getD_set_self _ k _ default (by rw [List.length_set, hlen1]; omega)]
          rw [getD_set_self _ f _ default (by omega)]
        · rw [if_neg hkj, getD_set_of_ne _ j k _ default (fun hh => hkj hh.symm)]
          by_cases hkf : k = f
          · subst hkf
            rw [if_pos rfl]
            rw [getD_set_self _ k _ default (by rw [hlen1]; omega)]
            rw [getD_set_of_ne _ k j _ default hjf.symm]
          · rw [if_neg hkf, getD_set_of_ne _ f k _ default (fun hh => hkf hh.symm),
              getD_set_of_ne _ f k _ default (fun hh => hkf hh.symm)]

/-- C9 witness: server 7 (index 0, last failure at tick 0) fails at tick
10, outside the window; its record gains the fixed step and moves to index
1, the last zero-failure server's index. -/
theorem claim_C9_witness :
    (serverFailedScan 7 [⟨some 7, 0, 0⟩, ⟨some 8, 0, 0⟩] 0 none none).1 = some 0 ∧
    (serverFailedScan 7 [⟨some 7, 0, 0⟩, ⟨some 8, 0, 0⟩] 0 none none).2 = some 1 ∧
    (([⟨some 7, 0, 0⟩, (⟨some 8, 0, 0⟩ : AltServer)].getD 0 default).host = some 7 ∧
     (10 - ([⟨some 7, 0, 0⟩, (⟨some 8, 0, 0⟩ : AltServer)].getD 0 default).lastFail ≤
        SERVER_RTT_INTERVAL_INIT →
       altservers_serverFailed [⟨some 7, 0, 0⟩, ⟨some 8, 0, 0⟩] 7 10 =
         [⟨some 7, 0, 0⟩, ⟨some 8, 0, 0⟩]) ∧
     (SERVER_RTT_INTERVAL_INIT <
        10 - ([⟨some 7, 0, 0⟩, (⟨some 8, 0, 0⟩ : AltServer)].getD 0 default).lastFail →
      (((serverFailedScan 7 [⟨some 7, 0, 0⟩, ⟨some 8, 0, 0⟩] 0 none none).2 = none →
         (altservers_serverFailed [⟨some 7, 0, 0⟩, ⟨some 8, 0, 0⟩] 7 10).getD 1 default =
           (if 1 = 0 then { [⟨some 7, 0, 0⟩, (⟨some 8, 0, 0⟩ : AltServer)].getD 0 default with
               numFails := ([⟨some 7, 0, 0⟩,
                 (⟨some 8, 0, 0⟩ : AltServer)].getD 0 default).numFails +
                   SERVER_UPLINK_FAIL_INCREASE,
               lastFail := 10 }
            else [⟨some 7, 0, 0⟩, (⟨some 8, 0, 0⟩ : AltServer)].getD 1 default)) ∧
       (∀ j, (serverFailedScan 7 [⟨some 7, 0, 0⟩, ⟨some 8, 0, 0⟩] 0 none none).2 = some j →
         (altservers_serverFailed [⟨some 7, 0, 0⟩, ⟨some 8, 0, 0⟩] 7 10).getD 1 default =
           (if 1 = j then { [⟨some 7, 0, 0⟩, (⟨some 8, 0, 0⟩ : AltServer)].getD 0 default with
               numFails := ([⟨some 7, 0, 0⟩,
                 (⟨some 8, 0, 0⟩ : AltServer)].getD 0 default).numFails +
                   SERVER_UPLINK_FAIL_INCREASE,
               lastFail := 10 }
            else if 1 = 0 then [⟨some 7, 0, 0⟩, (⟨some 8, 0, 0⟩ : AltServer)].getD j default
            else [⟨some 7, 0, 0⟩, (⟨some 8, 0, 0⟩ : AltServer)].getD 1 default))))) :=
  ⟨by decide, by decide, claim_C9 [⟨some 7, 0, 0⟩, ⟨some 8, 0, 0⟩] 7 10 0 1 (by decide)⟩

/-! ### Probe switch-decision lemmas and claim C6 -/

theorem lrDecay_bestCount (cur s : ProbeSrv) : (lrDecay cur s).bestCount = s.bestCount := by
  rw [lrDecay]
  split <;> rfl

theorem bcInc_bestCount (s : ProbeSrv) :
    (bcInc s).bestCount = if s.bestCount < 50 then s.bestCount + 2 else s.bestCount := by
  by_cases hc : s.bestCount < 50
  · rw [bcInc, if_pos hc, if_pos hc]
  · rw [bcInc, if_neg hc, if_neg hc]

theorem bcDec_bestCount (s : ProbeSrv) :
    (bcDec s).bestCount = if 0 < s.bestCount then s.bestCount - 1 else s.bestCount := by
  by_cases hc : 0 < s.bestCount
  · rw [bcDec, if_pos hc, if_pos hc]
  · rw [bcDec, if_neg hc, if_neg hc]

theorem probeUpd_length (cur : ProbeSrv) (bestIdx : Nat) :
    ∀ (l : List ProbeSrv) (i : Nat), (probeUpd cur bestIdx i l).length = l.length := by
  intro l
  induction l with
  | nil => intro i; rfl
  | cons s rest ih =>
      intro i
      simp only [probeUpd, List.length_cons, ih]

theorem probeUpd_getD (cur : ProbeSrv) (bestIdx : Nat) :
    ∀ (l : List ProbeSrv) (i j : Nat),
      (probeUpd cur bestIdx i l).getD j default =
        if j < l.length then
          (if i + j = bestIdx then bcInc (lrDecay cur (l.getD j default))
           else bcDec (lrDecay cur (l.getD j default)))
        else default := by
  intro l
  induction l with
  | nil =>
      intro i j
      rw [if_neg (show ¬ j < List.length [] by simp)]
      rfl
  | cons s rest ih =>
      intro i j
      cases j with
      | zero =>
          simp only [probeUpd, List.getD_cons_zero, List.length_cons, Nat.add_zero]
          rw [if_pos (show 0 < rest.length + 1 by omega)]
      | succ j' =>
          simp only [probeUpd, List.getD_cons_succ, List.length_cons]
          rw [ih (i + 1) j']
          by_cases hjl : j' < rest.length
          · by_cases hbi : i + 1 + j' = bestIdx
            · rw [if_pos hjl, if_pos hbi, if_pos (show j' + 1 < rest.length + 1 by omega),
                if_pos (show i + (j' + 1) = bestIdx by omega)]
            · rw [if_pos hjl, if_neg hbi, if_pos (show j' + 1 < rest.length + 1 by omega),
                if_neg (show ¬ i + (j' + 1) = bestIdx by omega)]
          · rw [if_neg hjl, if_neg (show ¬ j' + 1 < rest.length + 1 by omega)]

theorem resetOthers_getD (bestIdx : Nat) :
    ∀ (l : List ProbeSrv) (i j : Nat),
      (resetOthers bestIdx i l).getD j default =
        if j < l.length then
          (if i + j = bestIdx then l.getD j default
           else { l.getD j default with bestCount := 0 })
        else default := by
  intro l
  induction l with
  | nil =>
      intro i j
      rw [if_neg (show ¬ j < List.length [] by simp)]
      rfl
  | cons s rest ih =>
      intro i j
      cases j with
      | zero =>
          simp only [resetOthers, List.getD_cons_zero, List.length_cons, Nat.add_zero]
          rw [if_pos (show 0 < rest.length + 1 by omega)]
      | succ j' =>
          simp only [resetOthers, List.getD_cons_succ, List.length_cons]
          rw [ih (i + 1) j']
          by_cases hjl : j' < rest.length
          · by_cases hbi : i + 1 + j' = bestIdx
            · rw [if_pos hjl, if_pos hbi, if_pos (show j' + 1 < rest.length + 1 by omega),
                if_pos (show i + (j' + 1) = bestIdx by omega)]
            · rw [if_pos hjl, if_neg hbi, if_pos (show j' + 1 < rest.length + 1 by omega),
                if_neg (show ¬ i + (j' + 1) = bestIdx by omega)]
          · rw [if_neg hjl, if_neg (show ¬ j' + 1 < rest.length + 1 by omega)]

/-- C6 (amended): in a probe round with a connected current server: (1) a
switch is never taken when the (updated) best-count difference is below 8
and neither RTT threshold holds; (2) the best server's bestCount increases
by 2 only while below 50 — so it can reach 51 but, (4), never exceed 51;
(3) every other server's positive bestCount decays by 1 and stays at 0
otherwise; (5) a taken switch requires one of the RTT thresholds, or all
of: updated bestCount above 12, `rand() % 50` below it, best's RTT less
than current's, and best-count difference at least 8; (6) without a switch
the round's table is exactly the update-loop result, and a switch resets
every other server's bestCount to 0. -/
theorem claim_C6 (servers : List ProbeSrv) (bestIdx currentIdx randVal absThreshold : Nat)
    (factor : Nat → Nat) (i : Nat)
    (hb : bestIdx < servers.length) (hc : currentIdx < servers.length) :
    (((((probeUpd (servers.getD currentIdx default) bestIdx 0 servers).getD bestIdx
          default).bestCount : Int)
        - (((probeUpd (servers.getD currentIdx default) bestIdx 0 servers).getD currentIdx
          default).bestCount : Int) < 8) →
      ¬ ((servers.getD currentIdx default).rtt >
          (servers.getD bestIdx default).rtt + absThreshold) →
      ¬ (factor (servers.getD currentIdx default).rtt >
          (servers.getD bestIdx default).rtt + 1000) →
      (probeDecision servers bestIdx currentIdx randVal absThreshold factor).2 = false) ∧
    (((probeUpd (servers.getD currentIdx default) bestIdx 0 servers).getD bestIdx
        default).bestCount =
      if (servers.getD bestIdx default).bestCount < 50
      then (servers.getD bestIdx default).bestCount + 2
      else (servers.getD bestIdx default).bestCount) ∧
    (i ≠ bestIdx → i < servers.length →
      ((probeUpd (servers.getD currentIdx default) bestIdx 0 servers).getD i
          default).bestCount =
        if 0 < (servers.getD i default).bestCount
        then (servers.getD i default).bestCount - 1
        else (servers.getD i default).bestCount) ∧
    ((servers.getD bestIdx default).bestCount ≤ 51 →
      ((probeUpd (servers.getD currentIdx default) bestIdx 0 servers).getD bestIdx
          default).bestCount ≤ 51) ∧
    ((probeDecision servers bestIdx currentIdx randVal absThreshold factor).2 = true →
      (((servers.getD currentIdx default).rtt >
          (servers.getD bestIdx default).rtt + absThreshold) ∨
       (factor (servers.getD currentIdx default).rtt >
          (servers.getD bestIdx default).rtt + 1000)) ∨
      (12 < ((probeUpd (servers.getD currentIdx default) bestIdx 0 servers).getD bestIdx
          default).bestCount ∧
       randVal % 50 < ((probeUpd (servers.getD currentIdx default) bestIdx 0 servers).getD
          bestIdx default).bestCount ∧
       (servers.getD bestIdx default).rtt < (servers.getD currentIdx default).rtt ∧
       8 ≤ ((((probeUpd (servers.getD currentIdx default) bestIdx 0 servers).getD bestIdx
          default).bestCount : Int)
        - (((probeUpd (servers.getD currentIdx default) bestIdx 0 servers).getD currentIdx
          default).bestCount : Int)))) ∧
    ((probeDecision servers bestIdx currentIdx randVal absThreshold factor).2 = false →
      (probeDecision servers bestIdx currentIdx randVal absThreshold factor).1 =
        probeUpd (servers.getD currentIdx default) bestIdx 0 servers) ∧
    ((probeDecision servers bestIdx currentIdx randVal absThreshold factor).2 = true →
      i ≠ bestIdx → i < servers.length →
      (((probeDecision servers bestIdx currentIdx randVal absThreshold factor).1.getD i
          default).bestCount = 0)) := by
  have hupd := probeUpd_getD (servers.getD currentIdx default) bestIdx servers 0 bestIdx
  rw [if_pos hb, if_pos (show 0 + bestIdx = bestIdx by omega)] at hupd
  have hbest : ((probeUpd (servers.getD currentIdx default) bestIdx 0 servers).getD bestIdx
      default).bestCount =
      if (servers.getD bestIdx default).bestCount < 50
      then (servers.getD bestIdx default).bestCount + 2
      else (servers.getD bestIdx default).bestCount := by
    rw [hupd, bcInc_bestCount, lrDecay_bestCount]
  refine ⟨?_, hbest, ?_, ?_, ?_, ?_, ?_⟩
  · intro hdiff hth1 hth2
    simp only [probeDecision]
    rw [decide_eq_false hth1, decide_eq_false hth2, decide_eq_true hdiff]
    simp
  · intro hne hil
    have hupd2 := probeUpd_getD (servers.getD currentIdx default) bestIdx servers 0 i
    rw [if_pos hil, if_neg (show ¬ 0 + i = bestIdx by omega)] at hupd2
    rw [hupd2, bcDec_bestCount, lrDecay_bestCount]
  · intro hle
    rw [hbest]
    split <;> omega
  · intro hsw
    simp only [probeDecision, Bool.or_eq_true, Bool.and_eq_true, Bool.not_eq_eq_eq_not,
      Bool.not_true, decide_eq_true_eq, decide_eq_false_iff_not] at hsw
    rcases hsw with ⟨⟨⟨h1, h2⟩, h3⟩, h4⟩ | h5
    · exact Or.inr ⟨h1, h3, h2, by omega⟩
    · exact Or.inl h5
  · intro hsw
    simp only [probeDecision] at hsw ⊢
    rw [hsw, if_neg Bool.false_ne_true]
  · intro hsw hne hil
    simp only [probeDecision] at hsw ⊢
    rw [hsw, if_pos rfl]
    have hres := resetOthers_getD bestIdx
      (probeUpd (servers.getD currentIdx default) bestIdx 0 servers) 0 i
    rw [if_pos (show i < (probeUpd (servers.getD currentIdx default) bestIdx 0 servers).length
        by rw [probeUpd_length]; omega),
      if_neg (show ¬ 0 + i = bestIdx by omega)] at hres
    rw [hres]

/-- C6 witness: servers A (rtt 100), B (rtt 50, current), C (rtt 10), all
best counts 0; a round with A best takes no switch (thresholds 80000 and
2/3 with margin 1000 µs both fail, best-count difference is below 8). -/
theorem claim_C6_witness :
    0 < c6servers.length ∧ 1 < c6servers.length ∧
    (((((probeUpd (c6servers.getD 1 default) 0 0 c6servers).getD 0 default).bestCount : Int)
        - (((probeUpd (c6servers.getD 1 default) 0 0 c6servers).getD 1
          default).bestCount : Int) < 8) →
      ¬ ((c6servers.getD 1 default).rtt > (c6servers.getD 0 default).rtt + 80000) →
      ¬ ((fun us => us * 2 / 3) (c6servers.getD 1 default).rtt >
          (c6servers.getD 0 default).rtt + 1000) →
      (probeDecision c6servers 0 1 49 80000 (fun us => us * 2 / 3)).2 = false) ∧
    (((probeUpd (c6servers.getD 1 default) 0 0 c6servers).getD 0 default).bestCount =
      if (c6servers.getD 0 default).bestCount < 50
      then (c6servers.getD 0 default).bestCount + 2
      else (c6servers.getD 0 default).bestCount) ∧
    (2 ≠ 0 → 2 < c6servers.length →
      ((probeUpd (c6servers.getD 1 default) 0 0 c6servers).getD 2 default).bestCount =
        if 0 < (c6servers.getD 2 default).bestCount
        then (c6servers.getD 2 default).bestCount - 1
        else (c6servers.getD 2 default).bestCount) :=
  ⟨by decide, by decide,
   (claim_C6 c6servers 0 1 49 80000 (fun us => us * 2 / 3) 2 (by decide) (by decide)).1,
   (claim_C6 c6servers 0 1 49 80000 (fun us => us * 2 / 3) 2 (by decide) (by decide)).2.1,
   (claim_C6 c6servers 0 1 49 80000 (fun us => us * 2 / 3) 2 (by decide) (by decide)).2.2.1⟩

/-- C6 counterexample to the claim as stated ("bestCount increases by 2
capped at 50"): starting from all-zero best counts, 25 rounds with A best
bring A to 50, one round with C best decays A to 49, and one more round
with A best raises it to 51 — above the claimed cap of 50.  (No switch is
taken in any of these rounds.) -/
theorem claim_C6_counterexample :
    (c6servers.getD 0 default).bestCount = 0 ∧
    ((((List.replicate 25 0) ++ [2, 0]).foldl c6round c6servers).getD 0 default).bestCount
      = 51 ∧ 50 < 51 :=
  ⟨by decide, by decide, by decide⟩

end Dnbd3
